import Mathlib

/-!
# PhysicsFS, Windows Runtime platform layer (`winrt.cpp`)

A shallow embedding of the file, directory and path routines of `winrt.cpp`.

* C strings are lists of character codes (`List Nat`), the bytes before the
  terminating NUL; a `char *` that may be `NULL` is an `Option`.
* The operating system and the allocator are an oracle record (`Win32`): each
  field gives the answer of one API entry point.  Every routine returns a `Run`:
  the chronological list of the external calls it made (`Event`) and how it
  ended (`Outcome`).
* `BAIL_MACRO(e, r)` is `__PHYSFS_setError(e); return r;` and
  `BAIL_IF_MACRO(c, e, r)` is `if (c) BAIL_MACRO(e, r)` (`physfs_internal.h`).
* `assert(c)` ends the call (`Outcome.aborted`) when `c` is false; integer
  division by zero and accesses outside an allocation are `Outcome.undefined`.
-/

namespace WinRT

set_option maxRecDepth 20000

/-! ## Constants of `windows.h` and of the head of `winrt.cpp` -/

/-- Value of `PHYSFS_INVALID_SET_FILE_POINTER` (line 37). -/
def PHYSFS_INVALID_SET_FILE_POINTER : Nat := 0xFFFFFFFF

/-- Value of `PHYSFS_IO_REPARSE_TAG_SYMLINK` (line 43). -/
def PHYSFS_IO_REPARSE_TAG_SYMLINK : Nat := 0xA000000C

/-- Value of `FILE_ATTRIBUTE_REPARSE_POINT` in `windows.h`. -/
def FILE_ATTRIBUTE_REPARSE_POINT : Nat := 0x400

/-- Value of `INVALID_HANDLE_VALUE` in `windows.h`, `(HANDLE) -1`. -/
def INVALID_HANDLE_VALUE : Int := -1

/-- Value of `GENERIC_READ` in `windows.h`. -/
def GENERIC_READ : Nat := 0x80000000

/-- Value of `GENERIC_WRITE` in `windows.h`. -/
def GENERIC_WRITE : Nat := 0x40000000

/-- Value of `CREATE_ALWAYS` in `windows.h`. -/
def CREATE_ALWAYS : Nat := 2

/-- Value of `OPEN_EXISTING` in `windows.h`. -/
def OPEN_EXISTING : Nat := 3

/-- Value of `OPEN_ALWAYS` in `windows.h`. -/
def OPEN_ALWAYS : Nat := 4

/-- Value of `FILE_BEGIN` in `windows.h`. -/
def FILE_BEGIN : Nat := 0

/-- Value of `FILE_CURRENT` in `windows.h`. -/
def FILE_CURRENT : Nat := 1

/-- Value of `FILE_END` in `windows.h`. -/
def FILE_END : Nat := 2

/-- Value of `NO_ERROR` in `windows.h`. -/
def NO_ERROR : Nat := 0

/-- Value of `MAX_PATH` in `windows.h`. -/
def MAX_PATH : Nat := 260

/-- Size of a `WinApiFile` record (a `HANDLE` and an `int`, padded). -/
def sizeofWinApiFile : Nat := 16

/-- Character code of the backslash. -/
def BACKSLASH : Nat := 92

/-- Character code of the forward slash. -/
def SLASH : Nat := 47

/-- Character code of the full stop. -/
def DOT : Nat := 46

/-- Character code of the colon. -/
def COLON : Nat := 58

/-- Character code of the asterisk. -/
def STAR : Nat := 42

/-! ## Data model -/

/-- The record `WinApiFile` (lines 103-107). -/
structure WinApiFile where
  handle : Int
  readonly : Int
deriving DecidableEq, Repr

/-- The messages handed to `__PHYSFS_setError`: the two `ERR_*` string constants
of `physfs_internal.h` that this file uses, or a text built at run time. -/
inductive ErrMsg where
  | ERR_INVALID_ARGUMENT
  | ERR_OUT_OF_MEMORY
  | text (msg : List Nat)
deriving DecidableEq, Repr

/-- The fields of `WIN32_FIND_DATA` that the enumeration reads. `cFileName` is
the raw character array: the name is what precedes its first NUL. -/
structure FindData where
  dwFileAttributes : Nat
  dwReserved0 : Nat
  cFileName : List Nat
deriving DecidableEq, Repr

/-- A heap block handed to `allocator.Free`. -/
inductive Block where
  | file (f : WinApiFile)
  | chars (s : List Nat)
  | bytes (b : List Nat)
deriving DecidableEq, Repr

/-- The external calls a routine makes, in the order it makes them. -/
inductive Event where
  | ReadFile (h : Int) (nBytes : Nat)
  | WriteFile (h : Int) (nBytes : Nat)
  | SetFilePointerEx (h : Int) (lowPart highPart : Nat) (method : Nat)
  | GetFileInformationByHandleEx (h : Int)
  | FlushFileBuffers (h : Int)
  | CloseHandle (h : Int)
  | CreateFile2 (wfname : List Nat) (mode creation : Nat)
  | FindFirstFile (searchPath : List Nat) (delivered : Option FindData)
  | FindNextFile (delivered : Option FindData)
  | FindClose
  | CurrentDir
  | Malloc (size : Nat)
  | Realloc (size : Nat)
  | Free (b : Block)
  | setError (e : ErrMsg)
  | callback (callbackdata : Nat) (origdir : List Nat) (fname : List Nat)
deriving DecidableEq, Repr

/-- How a call ends: it returns a value, it is stopped by a failed `assert`,
it runs into undefined behaviour, or the model ran out of loop fuel. -/
inductive Outcome (α : Type) where
  | returned (value : α)
  | aborted
  | undefined
  | outOfFuel
deriving DecidableEq, Repr

/-- One call of a routine: the external calls made and the way it ended. -/
structure Run (α : Type) where
  trace : List Event
  result : Outcome α
deriving DecidableEq, Repr

/-- The operating system, the allocator and the helpers defined outside
`winrt.cpp`, as an oracle: each field is the answer of one entry point.
A `BOOL` answer is an `Int` (zero is failure). -/
structure Win32 where
  /-- Answer of `ReadFile(h, buffer, n, &got, NULL)`: the `BOOL` and `got`. -/
  ReadFile : Int → Nat → Int × Nat
  /-- Answer of `WriteFile(h, buffer, n, &put, NULL)`: the `BOOL` and `put`. -/
  WriteFile : Int → Nat → Int × Nat
  /-- Answer of `SetFilePointerEx(h, li, &out, method)`: the `BOOL` and `out.QuadPart`. -/
  SetFilePointerEx : Int → Nat → Nat → Nat → Int × Int
  /-- Answer of `GetFileInformationByHandleEx(h, FileStandardInfo, ..)`: the
  `BOOL` and `EndOfFile.QuadPart`. -/
  GetFileInformationByHandleEx : Int → Int × Int
  /-- Answer of `FlushFileBuffers(h)`. -/
  FlushFileBuffers : Int → Int
  /-- Answer of `CloseHandle(h)`. -/
  CloseHandle : Int → Int
  /-- Answer of `CreateFile2(wfname, mode, share, creation, NULL)`. -/
  CreateFile2 : List Nat → Nat → Nat → Int
  /-- Answer of `GetLastError()` after the failing call. -/
  GetLastError : Nat
  /-- The pointer `pFormatMessageW` (line 132): `none` when it is `NULL`, else
  the answer of the entry point behind it for an error code, the count and the
  message. -/
  pFormatMessageW : Option (Nat → Nat × List Nat)
  /-- The entries that `pFindFirstFileW` and then `pFindNextFileW` deliver for a
  search path, in order; the empty list when `pFindFirstFileW` fails. -/
  findFilesW : List Nat → List FindData
  /-- The entries that `FindFirstFileExA` and then `FindNextFileA` deliver for a
  search path, in order; the empty list when `FindFirstFileExA` fails. -/
  findFilesA : List Nat → List FindData
  /-- Whether the entry point `pFindFirstFileW` is present (non-NULL). -/
  pFindFirstFileW : Bool
  /-- Whether the entry point `pFindNextFileW` is present (non-NULL). -/
  pFindNextFileW : Bool
  /-- Answer of `allocator.Malloc(size)`: the initial bytes of the block, or `none` for `NULL`. -/
  Malloc : Nat → Option (List Nat)
  /-- Whether `__PHYSFS_smallAlloc(size)` succeeds. -/
  smallAlloc : Nat → Bool
  /-- The conversion `PHYSFS_utf8ToUcs2`. -/
  utf8ToUcs2 : List Nat → List Nat
  /-- The conversion `PHYSFS_utf8FromUcs2`. -/
  utf8FromUcs2 : List Nat → List Nat
  /-- The conversion `MultiByteToWideChar(CP_ACP, ..)`. -/
  MultiByteToWideChar : List Nat → List Nat
  /-- The conversion `WideCharToMultiByte(CP_ACP, ..)`. -/
  WideCharToMultiByte : List Nat → List Nat
  /-- The installed location of the package, `InstalledLocation->Path`. -/
  installedLocation : List Nat
  /-- The value an uninitialised `PHYSFS_sint64` local happens to hold. -/
  indeterminate : Int

/-- Conversion of a `BOOL` (a 32-bit `int`) to a `DWORD`. -/
def toDWORD (b : Int) : Nat := (b % 2 ^ 32).toNat

/-! ## Error text -/

/-- The routine `winApiStrError` (lines 323-352): the message of the last
error, cut at the first line break, as UTF-8. The call through
`pFormatMessageW` (line 328) has no test for `NULL` before it: `none` is the
call through a `NULL` pointer, after which nothing is defined. -/
def winApiStrError (os : Win32) : Option (List Nat) :=
  match os.pFormatMessageW with
  | none => none
  | some FormatMessageW =>
    let r := FormatMessageW os.GetLastError
    let msgbuf := if r.1 = 0 then [] else r.2
    some (os.utf8FromUcs2 (msgbuf.takeWhile (fun c => c ≠ 10 ∧ c ≠ 13)))

/-! ## File handles -/

/-- The macro `UTF8_TO_UNICODE_STACK_MACRO` (lines 46-55): `none` is `NULL`. -/
def UTF8_TO_UNICODE_STACK_MACRO (os : Win32) (str : Option (List Nat)) : Option (List Nat) :=
  match str with
  | none => none
  | some s => if os.smallAlloc ((s.length + 1) * 2) then some (os.utf8ToUcs2 s) else none

/-- The routine `doOpen` (lines 852-881). -/
def doOpen (os : Win32) (fname : Option (List Nat)) (mode creation : Nat) (rdonly : Int) :
    Run (Option WinApiFile) :=
  match UTF8_TO_UNICODE_STACK_MACRO os fname with
  | none => ⟨[.setError .ERR_OUT_OF_MEMORY], .returned none⟩
  | some wfname =>
    let fileHandle := os.CreateFile2 wfname mode creation
    if fileHandle = INVALID_HANDLE_VALUE then
      match winApiStrError os with
      | none => ⟨[.CreateFile2 wfname mode creation], .undefined⟩
      | some err =>
        ⟨[.CreateFile2 wfname mode creation, .setError (.text err)], .returned none⟩
    else
      match os.Malloc sizeofWinApiFile with
      | none =>
        ⟨[.CreateFile2 wfname mode creation, .Malloc sizeofWinApiFile, .CloseHandle fileHandle,
          .setError .ERR_OUT_OF_MEMORY], .returned none⟩
      | some _ =>
        ⟨[.CreateFile2 wfname mode creation, .Malloc sizeofWinApiFile],
          .returned (some { handle := fileHandle, readonly := rdonly })⟩

/-- The routine `__PHYSFS_platformOpenRead` (lines 884-887). -/
def __PHYSFS_platformOpenRead (os : Win32) (filename : Option (List Nat)) :
    Run (Option WinApiFile) :=
  doOpen os filename GENERIC_READ OPEN_EXISTING 1

/-- The routine `__PHYSFS_platformOpenWrite` (lines 890-893). -/
def __PHYSFS_platformOpenWrite (os : Win32) (filename : Option (List Nat)) :
    Run (Option WinApiFile) :=
  doOpen os filename GENERIC_WRITE CREATE_ALWAYS 0

/-- The routine `__PHYSFS_platformOpenAppend` (lines 896-916). The `BOOL` of
`SetFilePointerEx` is stored in the `DWORD rc` and compared with
`PHYSFS_INVALID_SET_FILE_POINTER`. -/
def __PHYSFS_platformOpenAppend (os : Win32) (filename : Option (List Nat)) :
    Run (Option WinApiFile) :=
  let retval := doOpen os filename GENERIC_WRITE OPEN_ALWAYS 0
  match retval.result with
  | .returned (some f) =>
    let h := f.handle
    let rc := toDWORD (os.SetFilePointerEx h 0 0 FILE_END).1
    if rc = PHYSFS_INVALID_SET_FILE_POINTER then
      match winApiStrError os with
      | none => ⟨retval.trace ++ [.SetFilePointerEx h 0 0 FILE_END], .undefined⟩
      | some err =>
        ⟨retval.trace ++ [.SetFilePointerEx h 0 0 FILE_END, .CloseHandle h, .Free (.file f),
          .setError (.text err)], .returned none⟩
    else
      ⟨retval.trace ++ [.SetFilePointerEx h 0 0 FILE_END], .returned (some f)⟩
  | _ => retval

/-- The routine `__PHYSFS_platformRead` (lines 919-940). `size` and `count`
are `PHYSFS_uint32`; the product is taken in 32 bits. -/
def __PHYSFS_platformRead (os : Win32) (fh : WinApiFile) (size count : Nat) : Run Int :=
  let Handle := fh.handle
  let r := os.ReadFile Handle ((count * size) % 2 ^ 32)
  let CountOfBytesRead := r.2 % 2 ^ 32
  if r.1 = 0 then
    match winApiStrError os with
    | none => ⟨[.ReadFile Handle ((count * size) % 2 ^ 32)], .undefined⟩
    | some err =>
      ⟨[.ReadFile Handle ((count * size) % 2 ^ 32), .setError (.text err)], .returned (-1)⟩
  else if size = 0 then
    ⟨[.ReadFile Handle ((count * size) % 2 ^ 32)], .undefined⟩
  else
    ⟨[.ReadFile Handle ((count * size) % 2 ^ 32)], .returned ((CountOfBytesRead / size : Nat) : Int)⟩

/-- The routine `__PHYSFS_platformWrite` (lines 943-964). -/
def __PHYSFS_platformWrite (os : Win32) (fh : WinApiFile) (size count : Nat) : Run Int :=
  let Handle := fh.handle
  let r := os.WriteFile Handle ((count * size) % 2 ^ 32)
  let CountOfBytesWritten := r.2 % 2 ^ 32
  if r.1 = 0 then
    match winApiStrError os with
    | none => ⟨[.WriteFile Handle ((count * size) % 2 ^ 32)], .undefined⟩
    | some err =>
      ⟨[.WriteFile Handle ((count * size) % 2 ^ 32), .setError (.text err)], .returned (-1)⟩
  else if size = 0 then
    ⟨[.WriteFile Handle ((count * size) % 2 ^ 32)], .undefined⟩
  else
    ⟨[.WriteFile Handle ((count * size) % 2 ^ 32)],
      .returned ((CountOfBytesWritten / size : Nat) : Int)⟩

/-- The macro `LOWORDER_UINT64` (line 29). -/
def LOWORDER_UINT64 (pos : Nat) : Nat := (pos &&& 0xFFFFFFFF) % 2 ^ 32

/-- The macro `HIGHORDER_UINT64` (line 30). -/
def HIGHORDER_UINT64 (pos : Nat) : Nat := ((pos >>> 32) &&& 0xFFFFFFFF) % 2 ^ 32

/-- The routine `__PHYSFS_platformSeek` (lines 967-984). -/
def __PHYSFS_platformSeek (os : Win32) (fh : WinApiFile) (pos : Nat) : Run Int :=
  let Handle := fh.handle
  let rc := (os.SetFilePointerEx Handle (LOWORDER_UINT64 pos) (HIGHORDER_UINT64 pos) FILE_BEGIN).1
  if rc = 0 ∧ os.GetLastError ≠ NO_ERROR then
    ⟨[.SetFilePointerEx Handle (LOWORDER_UINT64 pos) (HIGHORDER_UINT64 pos) FILE_BEGIN], .returned 0⟩
  else
    ⟨[.SetFilePointerEx Handle (LOWORDER_UINT64 pos) (HIGHORDER_UINT64 pos) FILE_BEGIN], .returned 1⟩

/-- The routine `__PHYSFS_platformTell` (lines 987-1009). -/
def __PHYSFS_platformTell (os : Win32) (fh : WinApiFile) : Run Int :=
  let Handle := fh.handle
  let r := os.SetFilePointerEx Handle 0 0 FILE_CURRENT
  if r.1 = 0 then
    ⟨[.SetFilePointerEx Handle 0 0 FILE_CURRENT], .returned 0⟩
  else if 0 ≤ r.2 then
    ⟨[.SetFilePointerEx Handle 0 0 FILE_CURRENT], .returned r.2⟩
  else
    ⟨[.SetFilePointerEx Handle 0 0 FILE_CURRENT], .aborted⟩

/-- The routine `__PHYSFS_platformFileLength` (lines 1012-1025). When the query
fails, `retval` is returned without ever having been assigned. -/
def __PHYSFS_platformFileLength (os : Win32) (fh : WinApiFile) : Run Int :=
  let Handle := fh.handle
  let r := os.GetFileInformationByHandleEx Handle
  if r.1 ≠ 0 then
    if 0 ≤ r.2 then
      ⟨[.GetFileInformationByHandleEx Handle], .returned r.2⟩
    else
      ⟨[.GetFileInformationByHandleEx Handle], .aborted⟩
  else
    ⟨[.GetFileInformationByHandleEx Handle], .returned os.indeterminate⟩

/-- The routine `__PHYSFS_platformEOF` (lines 1028-1045). -/
def __PHYSFS_platformEOF (os : Win32) (fh : WinApiFile) : Run Int :=
  let len := __PHYSFS_platformFileLength os fh
  match len.result with
  | .returned FileLength =>
    if FileLength = 0 then
      ⟨len.trace, .returned 1⟩
    else
      let pos := __PHYSFS_platformTell os fh
      match pos.result with
      | .returned FilePosition =>
        if FilePosition ≠ -1 then
          ⟨len.trace ++ pos.trace, .returned (if FilePosition = FileLength then 1 else 0)⟩
        else
          ⟨len.trace ++ pos.trace, .returned 0⟩
      | .aborted => ⟨len.trace ++ pos.trace, .aborted⟩
      | .undefined => ⟨len.trace ++ pos.trace, .undefined⟩
      | .outOfFuel => ⟨len.trace ++ pos.trace, .outOfFuel⟩
  | .aborted => ⟨len.trace, .aborted⟩
  | .undefined => ⟨len.trace, .undefined⟩
  | .outOfFuel => ⟨len.trace, .outOfFuel⟩

/-- The routine `__PHYSFS_platformFlush` (lines 1048-1055). -/
def __PHYSFS_platformFlush (os : Win32) (fh : WinApiFile) : Run Int :=
  if fh.readonly = 0 then
    if os.FlushFileBuffers fh.handle = 0 then
      match winApiStrError os with
      | none => ⟨[.FlushFileBuffers fh.handle], .undefined⟩
      | some err => ⟨[.FlushFileBuffers fh.handle, .setError (.text err)], .returned 0⟩
    else
      ⟨[.FlushFileBuffers fh.handle], .returned 1⟩
  else
    ⟨[], .returned 1⟩

/-- The C string held in a character array: what precedes the first NUL. -/
def cstr (a : List Nat) : List Nat := a.takeWhile (fun c => c ≠ 0)

/-- The routine `wStrLen` (lines 57-63). -/
def wStrLen (wstr : List Nat) : Nat := (cstr wstr).length

/-- The routine `unicodeToUtf8Heap` (lines 65-80); `none` is `NULL`. -/
def unicodeToUtf8Heap (os : Win32) (w_str : Option (List Nat)) : Run (Option (List Nat)) :=
  match w_str with
  | none => ⟨[], .returned none⟩
  | some w =>
    let len := wStrLen w * 4 + 1
    match os.Malloc len with
    | none => ⟨[.Malloc len, .setError .ERR_OUT_OF_MEMORY], .returned none⟩
    | some _ =>
      let retval := os.utf8FromUcs2 (cstr w)
      ⟨[.Malloc len, .Realloc (retval.length + 1)], .returned (some retval)⟩

/-- The routine `codepageToUtf8Heap` (lines 83-100); `none` is `NULL`. -/
def codepageToUtf8Heap (os : Win32) (cpstr : Option (List Nat)) : Run (Option (List Nat)) :=
  match cpstr with
  | none => ⟨[], .returned none⟩
  | some a =>
    let len := (cstr a).length + 1
    if os.smallAlloc (len * 2) then
      match os.Malloc (len * 4) with
      | none => ⟨[.Malloc (len * 4), .setError .ERR_OUT_OF_MEMORY], .returned none⟩
      | some _ =>
        ⟨[.Malloc (len * 4)],
          .returned (some (os.utf8FromUcs2 (os.MultiByteToWideChar (cstr a))))⟩
    else
      ⟨[.setError .ERR_OUT_OF_MEMORY], .returned none⟩

/-- The routine `isSymlinkAttrs` (lines 470-474). -/
def isSymlinkAttrs (attr tag : Nat) : Int :=
  if (attr &&& FILE_ATTRIBUTE_REPARSE_POINT) ≠ 0 ∧ tag = PHYSFS_IO_REPARSE_TAG_SYMLINK then 1
  else 0

/-- The routine `strchr` on a C string: the offset of the first `c`. -/
def strchr : List Nat → Nat → Option Nat
  | [], _ => none
  | x :: xs, c => if x = c then some 0 else (strchr xs c).map (fun i => i + 1)

/-- The loop of `__PHYSFS_platformCvtToDependent` (lines 550-551), started with
`p` at an offset into `retval` (or `NULL`); `none` when the fuel runs out. -/
def cvtLoop : Nat → List Nat → Option Nat → Option (List Nat)
  | _, retval, none => some retval
  | 0, _, some _ => none
  | fuel + 1, retval, some p =>
    let retval := retval.set p BACKSLASH
    cvtLoop fuel retval ((strchr (retval.drop (p + 1)) SLASH).map (fun i => p + 1 + i))

/-- The routine `__PHYSFS_platformCvtToDependent` (lines 528-554). The loop gets
one round of fuel for every character of `retval`, and one more. -/
def __PHYSFS_platformCvtToDependent (os : Win32) (prepend : Option (List Nat))
    (dirName : List Nat) (append : Option (List Nat)) : Run (Option (List Nat)) :=
  let len := (match prepend with | some s => s.length | none => 0) +
    (match append with | some s => s.length | none => 0) + dirName.length + 1
  match os.Malloc len with
  | none => ⟨[.Malloc len, .setError .ERR_OUT_OF_MEMORY], .returned none⟩
  | some _ =>
    let retval := match prepend with | some s => s | none => []
    let retval := retval ++ dirName
    let retval := match append with | some s => retval ++ s | none => retval
    match cvtLoop (retval.length + 1) retval (strchr retval SLASH) with
    | some r => ⟨[.Malloc len], .returned (some r)⟩
    | none => ⟨[.Malloc len], .outOfFuel⟩

/-- The conversion of an entry name in the two loops of
`__PHYSFS_platformEnumerateFiles`: `unicodeToUtf8Heap(fn)` in the Unicode loop
(line 628), `codepageToUtf8Heap(fn)` in the ANSI loop (line 651). -/
def entryNameToUtf8 (os : Win32) (unicode : Bool) (fn : List Nat) : Run (Option (List Nat)) :=
  if unicode then unicodeToUtf8Heap os (some fn) else codepageToUtf8Heap os (some fn)

/-- The body of the two `do ... while` loops of `__PHYSFS_platformEnumerateFiles`
(lines 617-633 and 640-656) for one entry; `unicode` picks the conversion. -/
def enumerateEntry (os : Win32) (unicode : Bool) (omitSymLinks : Int) (callbackdata : Nat)
    (origdir : List Nat) (ent : FindData) : List Event :=
  let attr := ent.dwFileAttributes
  let tag := ent.dwReserved0
  let fn := ent.cFileName
  if fn.getD 0 0 = DOT ∧ fn.getD 1 0 = 0 then []
  else if fn.getD 0 0 = DOT ∧ fn.getD 1 0 = DOT ∧ fn.getD 2 0 = 0 then []
  else if omitSymLinks ≠ 0 ∧ isSymlinkAttrs attr tag ≠ 0 then []
  else
    let utf8 := entryNameToUtf8 os unicode fn
    match utf8.result with
    | .returned (some name) => utf8.trace ++ [.callback callbackdata origdir name, .Free (.chars name)]
    | _ => utf8.trace

/-- One of the two `do ... while` loops of `__PHYSFS_platformEnumerateFiles`:
the entry at hand, then `FindNextFile` until it delivers nothing more. -/
def enumerateLoop (os : Win32) (unicode : Bool) (omitSymLinks : Int) (callbackdata : Nat)
    (origdir : List Nat) : FindData → List FindData → List Event
  | ent, [] =>
    enumerateEntry os unicode omitSymLinks callbackdata origdir ent ++ [.FindNextFile none]
  | ent, next :: rest =>
    enumerateEntry os unicode omitSymLinks callbackdata origdir ent ++
      .FindNextFile (some next) :: enumerateLoop os unicode omitSymLinks callbackdata origdir next rest

/-- The routine `__PHYSFS_platformEnumerateFiles` (lines 557-661). For an empty
`dirname` the test `searchPath[len - 1]` reads outside the block. -/
def __PHYSFS_platformEnumerateFiles (os : Win32) (dirname : List Nat) (omitSymLinks : Int)
    (callbackdata : Nat) (origdir : List Nat) : Run Unit :=
  let unicode := os.pFindFirstFileW && os.pFindNextFileW
  let len := dirname.length
  if os.smallAlloc (len + 3) then
    if len = 0 then ⟨[], .undefined⟩
    else
      let searchPath :=
        if dirname.getD (len - 1) 0 ≠ BACKSLASH then dirname ++ [BACKSLASH] else dirname
      let searchPath := searchPath ++ [STAR]
      match UTF8_TO_UNICODE_STACK_MACRO os (some searchPath) with
      | none => ⟨[], .returned ()⟩
      | some wSearchPath =>
        if unicode then
          match os.findFilesW wSearchPath with
          | [] => ⟨[.FindFirstFile wSearchPath none], .returned ()⟩
          | entw :: rest =>
            ⟨.FindFirstFile wSearchPath (some entw) ::
              (enumerateLoop os true omitSymLinks callbackdata origdir entw rest ++ [.FindClose]),
              .returned ()⟩
        else
          if os.smallAlloc (wStrLen wSearchPath + 1) then
            let cp := os.WideCharToMultiByte wSearchPath
            match os.findFilesA cp with
            | [] => ⟨[.FindFirstFile cp none], .returned ()⟩
            | ent :: rest =>
              ⟨.FindFirstFile cp (some ent) ::
                (enumerateLoop os false omitSymLinks callbackdata origdir ent rest ++ [.FindClose]),
                .returned ()⟩
          else ⟨[], .returned ()⟩
  else ⟨[], .returned ()⟩

/-! ## Character blocks

A block is the list of its bytes; its length is its size. Every access is
checked against the block: `none` is an access outside it. -/

/-- A fresh block of `n` bytes holding the bytes `g` the allocator left in it
(zero where `g` is too short). -/
def freshBlock (n : Nat) (g : List Nat) : List Nat :=
  g.take n ++ List.replicate (n - g.length) 0

/-- The read `buf[i]`. -/
def peek (buf : List Nat) (i : Nat) : Option Nat := buf.get? i

/-- The write `buf[i] = v`. -/
def poke (buf : List Nat) (i v : Nat) : Option (List Nat) :=
  if i < buf.length then some (buf.set i v) else none

/-- The write of `bytes` at `buf + off`. -/
def writeAt (buf : List Nat) (off : Nat) (bytes : List Nat) : Option (List Nat) :=
  if off + bytes.length ≤ buf.length then
    some (buf.take off ++ bytes ++ buf.drop (off + bytes.length))
  else none

/-- The length of the C string that starts a byte list: `none` when no NUL follows. -/
def strlenFrom : List Nat → Option Nat
  | [] => none
  | c :: cs => if c = 0 then some 0 else (strlenFrom cs).map (fun n => n + 1)

/-- The call `strlen(buf + i)`. -/
def strlenAt (buf : List Nat) (i : Nat) : Option Nat := strlenFrom (buf.drop i)

/-- The call `strcpy(buf + off, src)`: the string of `src` and its NUL. -/
def strcpyAt (buf : List Nat) (off : Nat) (src : List Nat) : Option (List Nat) :=
  writeAt buf off (cstr src ++ [0])

/-- The call `strcat(buf, src)`. -/
def strcatAt (buf : List Nat) (src : List Nat) : Option (List Nat) :=
  match strlenAt buf 0 with
  | none => none
  | some n => strcpyAt buf n src

/-- The call `memmove(buf + dst, buf + src, n)`. -/
def memmoveAt (buf : List Nat) (dst src n : Nat) : Option (List Nat) :=
  if src + n ≤ buf.length then writeAt buf dst ((buf.drop src).take n) else none

/-- The offset of the first backslash that a full stop follows, in a string. -/
def findBackslashDot : List Nat → Option Nat
  | [] => none
  | c :: cs =>
    if c = BACKSLASH ∧ cs.head? = some DOT then some 0
    else (findBackslashDot cs).map (fun i => i + 1)

/-- The call `strstr(buf + p, "\\.")`: `none` when the string at `buf + p` has
no NUL inside the block, `some none` for `NULL`, else the offset in the block. -/
def strstrAt (buf : List Nat) (p : Nat) : Option (Option Nat) :=
  match strlenAt buf p with
  | none => none
  | some n => some ((findBackslashDot ((buf.drop p).take n)).map (fun i => p + i))

/-- The inner loop of lines 767-769, started at `prevEntry = retval + i`: it
walks back to the nearest backslash, or to `retval`. -/
def prevEntryScan (buf : List Nat) : Nat → Nat
  | 0 => 0
  | i + 1 => if buf.getD (i + 1) 0 = BACKSLASH then i + 1 else prevEntryScan buf i

/-- One round of the loop of lines 754-788 with the scan position at `retval + p`:
`none` is an access outside the block, `some (buf, none)` the exit of the loop
(`strstr` gave `NULL`), `some (buf, some q)` the state after the round. -/
def realPathStep (retval : List Nat) (p : Nat) : Option (List Nat × Option Nat) :=
  match strstrAt retval p with
  | none => none
  | some none => some (retval, none)
  | some (some p) =>
    match peek retval (p + 2) with
    | none => none
    | some p2 =>
      if p2 = BACKSLASH then
        match strlenAt retval (p + 3) with
        | none => none
        | some n => (memmoveAt retval (p + 1) (p + 3) (n + 1)).map (fun b => (b, some p))
      else if p2 = 0 then
        (poke retval p 0).map (fun b => (b, some p))
      else if p2 = DOT then
        if p = 0 then none
        else
          let prevEntry := prevEntryScan retval (p - 1)
          if prevEntry = 0 then
            match strlenAt retval (p + 2) with
            | none => none
            | some n => (memmoveAt retval (p + 1) (p + 2) (n + 1)).map (fun b => (b, some p))
          else
            match peek retval (p + 3) with
            | none => none
            | some p3 =>
              if p3 ≠ 0 then
                (poke retval prevEntry 0).map (fun b => (b, some prevEntry))
              else
                match strlenAt retval (p + 4) with
                | none => none
                | some n =>
                  (memmoveAt retval (prevEntry + 1) (p + 4) (n + 1)).map
                    (fun b => (b, some prevEntry))
      else
        some (retval, some (p + 1))

/-- The loop of lines 753-788, with one unit of fuel for every round. -/
def realPathLoop : Nat → List Nat → Nat → Outcome (List Nat)
  | 0, _, _ => .outOfFuel
  | fuel + 1, retval, p =>
    match realPathStep retval p with
    | none => .undefined
    | some (retval, none) => .returned retval
    | some (retval, some p) => realPathLoop fuel retval p

/-- The routine `__PHYSFS_platformCurrentDir` (lines 664-671). `wcscpy_s` and
`wcscat_s` end the program when the 1024 characters of `path2` do not suffice. -/
def __PHYSFS_platformCurrentDir (os : Win32) : Run (Option (List Nat)) :=
  if (cstr os.installedLocation).length + 2 ≤ 1024 then
    unicodeToUtf8Heap os (some (cstr os.installedLocation ++ [BACKSLASH]))
  else ⟨[], .aborted⟩

/-- The end of `__PHYSFS_platformRealPath` (lines 751-795): the loop on the
filled block, then the shrinking `Realloc`; the value is the string in the block. -/
def realPathFinish (fuel : Nat) (trace : List Event) (filled : Option (List Nat)) :
    Run (Option (List Nat)) :=
  match filled with
  | none => ⟨trace, .undefined⟩
  | some retval =>
    match realPathLoop fuel retval 0 with
    | .returned retval =>
      match strlenAt retval 0 with
      | none => ⟨trace, .undefined⟩
      | some n => ⟨trace ++ [.Realloc (n + 1)], .returned (some (retval.take n))⟩
    | .aborted => ⟨trace, .aborted⟩
    | .undefined => ⟨trace, .undefined⟩
    | .outOfFuel => ⟨trace, .outOfFuel⟩

/-- The routine `__PHYSFS_platformRealPath` (lines 675-796); `fuel` bounds the
rounds of its loop. `path` is the character array of the argument. -/
def __PHYSFS_platformRealPath (fuel : Nat) (os : Win32) (path : Option (List Nat)) :
    Run (Option (List Nat)) :=
  match path with
  | none => ⟨[.setError .ERR_INVALID_ARGUMENT], .returned none⟩
  | some path =>
    if path.getD 0 0 = 0 then ⟨[.setError .ERR_INVALID_ARGUMENT], .returned none⟩
    else
      match os.Malloc MAX_PATH with
      | none => ⟨[.Malloc MAX_PATH, .setError .ERR_OUT_OF_MEMORY], .returned none⟩
      | some g =>
        let retval := freshBlock MAX_PATH g
        if path.getD 0 0 = BACKSLASH ∧ path.getD 1 0 = BACKSLASH then
          realPathFinish fuel [.Malloc MAX_PATH] (strcpyAt retval 0 path)
        else
          let cd := __PHYSFS_platformCurrentDir os
          match cd.result with
          | .returned none =>
            ⟨.Malloc MAX_PATH :: .CurrentDir :: cd.trace ++
              [.Free (.bytes retval), .setError .ERR_OUT_OF_MEMORY], .returned none⟩
          | .returned (some currentDir) =>
            let filled :=
              if path.getD 1 0 = COLON then
                if path.getD 2 0 = BACKSLASH then strcpyAt retval 0 path
                else if path.getD 0 0 = currentDir.getD 0 0 then
                  (strcpyAt retval 0 currentDir).bind (fun b => strcatAt b (path.drop 2))
                else
                  (poke retval 0 (path.getD 0 0)).bind (fun b =>
                    (poke b 1 COLON).bind (fun b =>
                      (poke b 2 BACKSLASH).bind (fun b => strcpyAt b 3 (path.drop 2))))
              else if path.getD 0 0 = BACKSLASH then
                (poke retval 0 (currentDir.getD 0 0)).bind (fun b =>
                  (poke b 1 COLON).bind (fun b => strcpyAt b 2 path))
              else
                (strcpyAt retval 0 currentDir).bind (fun b => strcatAt b path)
            realPathFinish fuel
              (.Malloc MAX_PATH :: .CurrentDir :: cd.trace ++ [.Free (.chars currentDir)]) filled
          | .aborted => ⟨.Malloc MAX_PATH :: .CurrentDir :: cd.trace, .aborted⟩
          | .undefined => ⟨.Malloc MAX_PATH :: .CurrentDir :: cd.trace, .undefined⟩
          | .outOfFuel => ⟨.Malloc MAX_PATH :: .CurrentDir :: cd.trace, .outOfFuel⟩

/-- The entries the find calls delivered, read off a trace. -/
def deliveredEntries : List Event → List FindData
  | [] => []
  | .FindFirstFile _ (some e) :: t => e :: deliveredEntries t
  | .FindNextFile (some e) :: t => e :: deliveredEntries t
  | _ :: t => deliveredEntries t

/-- The callback invocations of a trace, each with its three arguments. -/
def callbacks : List Event → List (Nat × List Nat × List Nat)
  | [] => []
  | .callback d o n :: t => (d, o, n) :: callbacks t
  | _ :: t => callbacks t

/-- An entry is a symlink when its reparse-point attribute bit is set and its
reparse tag is `0xA000000C`. -/
def entryIsSymlink (e : FindData) : Prop :=
  e.dwFileAttributes &&& FILE_ATTRIBUTE_REPARSE_POINT ≠ 0 ∧ e.dwReserved0 = 0xA000000C

instance (e : FindData) : Decidable (entryIsSymlink e) :=
  inferInstanceAs (Decidable (_ ∧ _))

/-- The entries the enumeration is to report: the name is neither `.` nor `..`,
and the entry is no symlink when `omitSymLinks` is non-zero. -/
def entryReported (omitSymLinks : Int) (e : FindData) : Prop :=
  cstr e.cFileName ≠ [46] ∧ cstr e.cFileName ≠ [46, 46] ∧
    (omitSymLinks ≠ 0 → ¬ entryIsSymlink e)

instance (omitSymLinks : Int) (e : FindData) : Decidable (entryReported omitSymLinks e) :=
  inferInstanceAs (Decidable (_ ∧ _ ∧ _))

/-- The UTF-8 name handed to the callback for an entry. -/
def entryUtf8 (os : Win32) (unicode : Bool) (e : FindData) : List Nat :=
  if unicode then os.utf8FromUcs2 (cstr e.cFileName)
  else os.utf8FromUcs2 (os.MultiByteToWideChar (cstr e.cFileName))

/-- Recogniser of the `WriteFile` requests in a trace. -/
def isWriteFile : Event → Bool
  | .WriteFile _ _ => true
  | _ => false

/-- Recogniser of the `__PHYSFS_setError` calls in a trace. -/
def isSetError : Event → Bool
  | .setError _ => true
  | _ => false

/-- A platform on which every call succeeds: handle 7, an empty file, every
transfer complete. -/
def sampleOs : Win32 where
  ReadFile := fun _ n => (1, n)
  WriteFile := fun _ n => (1, n)
  SetFilePointerEx := fun _ _ _ _ => (1, 0)
  GetFileInformationByHandleEx := fun _ => (1, 0)
  FlushFileBuffers := fun _ => 1
  CloseHandle := fun _ => 1
  CreateFile2 := fun _ _ _ => 7
  GetLastError := 5
  pFormatMessageW := some (fun _ => (8, [68, 101, 110, 105, 101, 100, 13, 10]))
  findFilesW := fun _ => []
  findFilesA := fun _ => []
  pFindFirstFileW := true
  pFindNextFileW := true
  Malloc := fun n => some (List.replicate n 0)
  smallAlloc := fun _ => true
  utf8ToUcs2 := fun s => s
  utf8FromUcs2 := fun s => s
  MultiByteToWideChar := fun s => s
  WideCharToMultiByte := fun s => s
  installedLocation := [67, 58, 92, 97, 112, 112]
  indeterminate := -1

/-- A platform on which files open (handle 7) and every later call on the
handle fails. -/
def failingOs : Win32 :=
  { sampleOs with
    ReadFile := fun _ _ => (0, 0)
    WriteFile := fun _ _ => (0, 0)
    SetFilePointerEx := fun _ _ _ _ => (0, 0)
    GetFileInformationByHandleEx := fun _ => (0, 0)
    FlushFileBuffers := fun _ => 0
    CloseHandle := fun _ => 0 }

/-- The platform `failingOs` with `pFormatMessageW` left `NULL`, as
`findApiSymbols` leaves it when `kernel32.dll` does not load. -/
def unresolvedOs : Win32 :=
  { failingOs with pFormatMessageW := none }

/-- A platform whose file is 10 bytes long with the file pointer at 4, and
whose transfers move 6 bytes. -/
def shortOs : Win32 :=
  { sampleOs with
    ReadFile := fun _ _ => (1, 6)
    WriteFile := fun _ _ => (1, 6)
    SetFilePointerEx := fun _ _ _ _ => (1, 4)
    GetFileInformationByHandleEx := fun _ => (1, 10) }

/-- A platform with a directory of five entries: `.`, `..`, the file `a`, the
symlink `l`, and `m`, a reparse point with another tag. -/
def dirOs : Win32 :=
  { sampleOs with
    findFilesW := fun _ =>
      [⟨16, 0, [46, 0]⟩, ⟨16, 0, [46, 46, 0]⟩, ⟨32, 0, [97, 0]⟩,
        ⟨0x400, 0xA000000C, [108, 0]⟩, ⟨0x410, 0xA0000003, [109, 0]⟩] }

/-- A platform whose allocator hands out blocks filled with the letter `x`. -/
def garbageOs : Win32 :=
  { sampleOs with Malloc := fun n => some (List.replicate n 120) }

/-- A path of 260 characters: two backslashes, then 258 times the letter `a`. -/
def longPath : List Nat := 92 :: 92 :: List.replicate 258 97

/-- A handle open for reading. -/
def readHandle : WinApiFile := { handle := 7, readonly := 1 }

/-- A handle open for writing. -/
def writeHandle : WinApiFile := { handle := 7, readonly := 0 }

/-! ## Entry points looked up at start -/

/-- The entry points that `winrt.cpp` holds a pointer for (lines 118-135). -/
inductive Sym where
  | GetModuleFileNameW
  | GetUserProfileDirectoryW
  | GetUserNameW
  | GetFileAttributesW
  | FindFirstFileW
  | FindNextFileW
  | GetCurrentDirectoryW
  | DeleteFileW
  | RemoveDirectoryW
  | CreateDirectoryW
  | GetFileAttributesExA
  | GetFileAttributesExW
  | FormatMessageW
  | CreateFileW
deriving DecidableEq, Repr

/-- The libraries that `findApiSymbols` loads. -/
inductive Dll where
  | userenv
  | advapi32
  | kernel32
deriving DecidableEq, Repr

/-- A non-NULL function pointer: an address that `GetProcAddress` gave for a
module, or one of the `fallback...` routines of `winrt.cpp`. -/
inductive Proc where
  | exported (module : Nat) (sym : Sym)
  | fallback (sym : Sym)
deriving DecidableEq, Repr

/-- The file-scope variables of lines 110-135; `none` is `NULL`, a module
handle 0 is `NULL`. -/
structure Globals where
  userDir : Option (List Nat)
  osHasUnicode : Int
  libKernel32 : Nat
  libUserEnv : Nat
  libAdvApi32 : Nat
  pGetModuleFileNameW : Option Proc
  pGetUserProfileDirectoryW : Option Proc
  pGetUserNameW : Option Proc
  pGetFileAttributesW : Option Proc
  pFindFirstFileW : Option Proc
  pFindNextFileW : Option Proc
  pGetCurrentDirectoryW : Option Proc
  pDeleteFileW : Option Proc
  pRemoveDirectoryW : Option Proc
  pCreateDirectoryW : Option Proc
  pGetFileAttributesExA : Option Proc
  pGetFileAttributesExW : Option Proc
  pFormatMessageW : Option Proc
  pCreateFileW : Option Proc
deriving DecidableEq, Repr

/-- The file-scope variables when the program starts: statics are zero. -/
def initialGlobals : Globals where
  userDir := none
  osHasUnicode := 0
  libKernel32 := 0
  libUserEnv := 0
  libAdvApi32 := 0
  pGetModuleFileNameW := none
  pGetUserProfileDirectoryW := none
  pGetUserNameW := none
  pGetFileAttributesW := none
  pFindFirstFileW := none
  pFindNextFileW := none
  pGetCurrentDirectoryW := none
  pDeleteFileW := none
  pRemoveDirectoryW := none
  pCreateDirectoryW := none
  pGetFileAttributesExA := none
  pGetFileAttributesExW := none
  pFormatMessageW := none
  pCreateFileW := none

/-- The loader and the package folders, as an oracle. -/
structure Loader where
  /-- Answer of `LoadPackagedLibrary(name, 0)`: the module handle, 0 for `NULL`. -/
  LoadPackagedLibrary : Dll → Nat
  /-- Whether `GetProcAddress(module, sym)` finds the symbol. -/
  GetProcAddress : Nat → Sym → Bool
  /-- The folder `ApplicationData::Current->LocalFolder->Path`. -/
  localFolder : List Nat
  /-- Answer of `GetUserNameW(NULL, &bufsize)`: the `BOOL` and `bufsize`. -/
  GetUserNameProbe : Int × Nat
  /-- Answer of `GetUserNameW(wbuf, &bufsize)`: the `BOOL` and the name. -/
  GetUserName : Int × List Nat

/-- The routine `symLookup` (lines 251-259): the value stored in `*addr`. -/
def symLookup (ld : Loader) (dll : Nat) (sym : Sym) (reallyLook : Int)
    (fallback : Option Proc) : Option Proc :=
  let proc : Option Proc :=
    if reallyLook ≠ 0 then
      (if ld.GetProcAddress dll sym then some (.exported dll sym) else none)
    else none
  if proc = none then fallback else proc

/-- The routine `findApiSymbols` (lines 262-310): the variables after the call
and the value returned. The `LOOKUP(GetUserNameW, ..)` of lines 284-285 is
commented out in the source and so has no counterpart here. -/
def findApiSymbols (ld : Loader) (g : Globals) : Globals × Int :=
  let g := { g with libUserEnv := ld.LoadPackagedLibrary .userenv }
  let g :=
    if g.libUserEnv ≠ 0 then
      { g with pGetUserProfileDirectoryW :=
          symLookup ld g.libUserEnv .GetUserProfileDirectoryW g.osHasUnicode none }
    else g
  let g := { g with libAdvApi32 := ld.LoadPackagedLibrary .advapi32 }
  let g := { g with libKernel32 := ld.LoadPackagedLibrary .kernel32 }
  let dll := g.libKernel32
  let g :=
    if dll ≠ 0 then
      { g with
        pGetFileAttributesExA := symLookup ld dll .GetFileAttributesExA 1 none
        pGetFileAttributesExW := symLookup ld dll .GetFileAttributesExW g.osHasUnicode none
        pFindFirstFileW := symLookup ld dll .FindFirstFileW g.osHasUnicode none
        pFindNextFileW := symLookup ld dll .FindNextFileW g.osHasUnicode none
        pGetModuleFileNameW :=
          symLookup ld dll .GetModuleFileNameW g.osHasUnicode (some (.fallback .GetModuleFileNameW))
        pFormatMessageW :=
          symLookup ld dll .FormatMessageW g.osHasUnicode (some (.fallback .FormatMessageW))
        pGetFileAttributesW :=
          symLookup ld dll .GetFileAttributesW g.osHasUnicode (some (.fallback .GetFileAttributesW))
        pGetCurrentDirectoryW :=
          symLookup ld dll .GetCurrentDirectoryW g.osHasUnicode
            (some (.fallback .GetCurrentDirectoryW))
        pCreateDirectoryW :=
          symLookup ld dll .CreateDirectoryW g.osHasUnicode (some (.fallback .CreateDirectoryW))
        pRemoveDirectoryW :=
          symLookup ld dll .RemoveDirectoryW g.osHasUnicode (some (.fallback .RemoveDirectoryW))
        pCreateFileW :=
          symLookup ld dll .CreateFileW g.osHasUnicode (some (.fallback .CreateFileW))
        pDeleteFileW :=
          symLookup ld dll .DeleteFileW g.osHasUnicode (some (.fallback .DeleteFileW)) }
    else g
  (g, 1)

/-- The routine `getOSInfo` (lines 816-820). -/
def getOSInfo (g : Globals) : Globals × Int :=
  ({ g with osHasUnicode := 1 }, 1)

/-- The routine `getExePath` (lines 355-362). -/
def getExePath (os : Win32) : Run (Option (List Nat)) :=
  if (cstr os.installedLocation).length + 2 ≤ 1024 then
    unicodeToUtf8Heap os (some (cstr os.installedLocation ++ [BACKSLASH]))
  else ⟨[], .aborted⟩

/-- The routine `determineUserDir` (lines 375-395). -/
def determineUserDir (ld : Loader) (os : Win32) (g : Globals) : Globals × Run Int :=
  match g.userDir with
  | some _ => (g, ⟨[], .returned 1⟩)
  | none =>
    if (cstr ld.localFolder).length + 2 ≤ 1024 then
      let u := unicodeToUtf8Heap os (some (cstr ld.localFolder ++ [BACKSLASH]))
      match u.result with
      | .returned (some dir) => ({ g with userDir := some dir }, ⟨u.trace, .returned 1⟩)
      | .returned none =>
        let e := getExePath os
        match e.result with
        | .returned (some dir) =>
          ({ g with userDir := some dir }, ⟨u.trace ++ e.trace, .returned 1⟩)
        | .returned none => (g, ⟨u.trace ++ e.trace, .returned 0⟩)
        | .aborted => (g, ⟨u.trace ++ e.trace, .aborted⟩)
        | .undefined => (g, ⟨u.trace ++ e.trace, .undefined⟩)
        | .outOfFuel => (g, ⟨u.trace ++ e.trace, .outOfFuel⟩)
      | .aborted => (g, ⟨u.trace, .aborted⟩)
      | .undefined => (g, ⟨u.trace, .undefined⟩)
      | .outOfFuel => (g, ⟨u.trace, .outOfFuel⟩)
    else (g, ⟨[], .aborted⟩)

/-- The routine `__PHYSFS_platformInit` (lines 823-829): the variables after the
call, and the call. -/
def __PHYSFS_platformInit (ld : Loader) (os : Win32) (g : Globals) : Globals × Run Int :=
  let r1 := getOSInfo g
  if r1.2 = 0 then (r1.1, ⟨[], .returned 0⟩)
  else
    let r2 := findApiSymbols ld r1.1
    if r2.2 = 0 then (r2.1, ⟨[], .returned 0⟩)
    else
      let r3 := determineUserDir ld os r2.1
      (r3.1,
        match r3.2.result with
        | .returned v => if v = 0 then ⟨r3.2.trace, .returned 0⟩ else ⟨r3.2.trace, .returned 1⟩
        | .aborted => ⟨r3.2.trace, .aborted⟩
        | .undefined => ⟨r3.2.trace, .undefined⟩
        | .outOfFuel => ⟨r3.2.trace, .outOfFuel⟩)

/-- The routine `__PHYSFS_platformGetUserName` (lines 412-429). The call through
`pGetUserNameW` has no test for `NULL` before it: with a `NULL` pointer the
behaviour is undefined. -/
def __PHYSFS_platformGetUserName (ld : Loader) (os : Win32) (g : Globals) :
    Run (Option (List Nat)) :=
  match g.pGetUserNameW with
  | none => ⟨[], .undefined⟩
  | some _ =>
    if ld.GetUserNameProbe.1 = 0 then
      let bufsize := ld.GetUserNameProbe.2
      if os.smallAlloc (bufsize * 2) then
        if ld.GetUserName.1 = 0 then
          match winApiStrError os with
          | none => ⟨[], .undefined⟩
          | some err => ⟨[.setError (.text err)], .returned none⟩
        else unicodeToUtf8Heap os (some ld.GetUserName.2)
      else ⟨[.setError .ERR_OUT_OF_MEMORY], .returned none⟩
    else ⟨[], .returned none⟩

/-- The routine `__PHYSFS_platformMkDir` (lines 799-808). The call through
`pCreateDirectoryW` has no test for `NULL` before it. `created` is the answer
of the entry point. -/
def __PHYSFS_platformMkDir (os : Win32) (g : Globals) (created : Int) : Run Int :=
  match g.pCreateDirectoryW with
  | none => ⟨[], .undefined⟩
  | some _ =>
    if created % 2 ^ 32 = 0 then
      match winApiStrError os with
      | none => ⟨[], .undefined⟩
      | some err => ⟨[.setError (.text err)], .returned 0⟩
    else ⟨[], .returned 1⟩

/-- The platform as the routines see it when the file-scope variables hold
`g`: a call through `pFormatMessageW` reaches the entry point only when the
variable is not `NULL`. -/
def withGlobals (g : Globals) (os : Win32) : Win32 :=
  { os with
    pFormatMessageW :=
      match g.pFormatMessageW with
      | none => none
      | some _ => os.pFormatMessageW }

/-- A loader that finds the three libraries and every symbol in them. -/
def sampleLoader : Loader where
  LoadPackagedLibrary := fun d =>
    match d with
    | .userenv => 11
    | .advapi32 => 12
    | .kernel32 => 13
  GetProcAddress := fun _ _ => true
  localFolder := [67, 58, 92, 108]
  GetUserNameProbe := (0, 4)
  GetUserName := (1, [98, 111, 98, 0])

/-- A loader for which `LoadPackagedLibrary` finds no library. -/
def emptyLoader : Loader :=
  { sampleLoader with LoadPackagedLibrary := fun _ => 0 }

/-! ## Dot entries of a path -/

/-- A backslash followed by a full stop stands at offset `q` of the string `s`. -/
def occursAt (s : List Nat) (q : Nat) : Prop :=
  s.getD q 0 = 92 ∧ s.getD (q + 1) 0 = 46

/-- Offset `q` of the string `s` starts an entry that the loop of
`__PHYSFS_platformRealPath` acts on: a backslash, a full stop, and then a
backslash, a full stop or the end of the string. -/
def liveEntryAt (s : List Nat) (q : Nat) : Prop :=
  occursAt s q ∧ (s.getD (q + 2) 0 = 92 ∨ s.getD (q + 2) 0 = 46 ∨ s.getD (q + 2) 0 = 0)

/-- The state after a round of the loop that changed the string `s` while
working at offset `q`: there is a backslash at `m`, the new scan position, and
the new block holds the string `s.take k ++ a`, where `k = m + 1`, or `k = m`
and `a` is empty. -/
def StepTo (s : List Nat) (q : Nat) (buf : List Nat) (m : Nat) : Prop :=
  ∃ k a t, m ≤ q ∧ k ≤ s.length ∧ 0 ∉ a ∧ s.getD m 0 = 92 ∧
    (k = m + 1 ∨ (k = m ∧ a = [])) ∧ buf = (s.take k ++ a) ++ 0 :: t

/-- The source range `(offset, length)` of the `memmove` of one round of the
loop of lines 754-788 with the scan position at `retval + p`, read off the
three `memmove` calls (lines 759, 772 and 778); `none` for a round without one. -/
def realPathStepSource (retval : List Nat) (p : Nat) : Option (Nat × Nat) :=
  match strstrAt retval p with
  | none => none
  | some none => none
  | some (some p) =>
    match peek retval (p + 2) with
    | none => none
    | some p2 =>
      if p2 = BACKSLASH then
        (strlenAt retval (p + 3)).map (fun n => (p + 3, n + 1))
      else if p2 = 0 then none
      else if p2 = DOT then
        if p = 0 then none
        else
          let prevEntry := prevEntryScan retval (p - 1)
          if prevEntry = 0 then
            (strlenAt retval (p + 2)).map (fun n => (p + 2, n + 1))
          else
            match peek retval (p + 3) with
            | none => none
            | some p3 =>
              if p3 ≠ 0 then none
              else (strlenAt retval (p + 4)).map (fun n => (p + 4, n + 1))
      else none

/-- A platform whose allocator hands out blocks of an earlier use: nine
letters `x`, the four characters `a\..` at offset 9, and zero bytes after them. -/
def loopOs : Win32 :=
  { sampleOs with
    Malloc := fun n =>
      some (List.replicate 9 120 ++ [97, 92, 46, 46] ++ List.replicate (n - 13) 0) }

/-- The block that `strcpy` fills for the path `\\s\a\..` on `loopOs`: the
path, its NUL at offset 8, the stale `a\..` at offset 9, then zero bytes. -/
def loopBlock : List Nat :=
  [92, 92, 115, 92, 97, 92, 46, 46, 0] ++ ([97, 92, 46, 46] ++ List.replicate 247 0)

/-- Both queries of `__PHYSFS_platformTell` that return give a non-negative value. -/
theorem platformTell_nonneg (os : Win32) (fh : WinApiFile) (pos : Int)
    (h : (__PHYSFS_platformTell os fh).result = .returned pos) : 0 ≤ pos := by
  unfold __PHYSFS_platformTell at h
  simp only at h
  split_ifs at h with h1 h2
  · cases h; exact le_refl 0
  · cases h; exact h2

/-- C1: whenever the length query returns `len`, `__PHYSFS_platformEOF` returns 1
for `len = 0` without asking for the position, and whenever the position query
returns `pos` as well it returns a value that is non-zero exactly when
`len = 0` or `pos = len`. -/
theorem platformEOF_iff (os : Win32) (fh : WinApiFile) :
    ∀ len : Int, (__PHYSFS_platformFileLength os fh).result = .returned len →
      (len = 0 → __PHYSFS_platformEOF os fh =
        ⟨[.GetFileInformationByHandleEx fh.handle], .returned 1⟩) ∧
      (∀ pos : Int, (__PHYSFS_platformTell os fh).result = .returned pos →
        ∃ r : Int, (__PHYSFS_platformEOF os fh).result = .returned r ∧
          (r ≠ 0 ↔ (len = 0 ∨ pos = len))) := by
  intro len hlen
  have htr : (__PHYSFS_platformFileLength os fh).trace =
      [.GetFileInformationByHandleEx fh.handle] := by
    unfold __PHYSFS_platformFileLength
    simp only
    split_ifs <;> rfl
  constructor
  · intro h0
    subst h0
    unfold __PHYSFS_platformEOF
    simp only [hlen, htr, if_true]
  · intro pos hpos
    have hnn := platformTell_nonneg os fh pos hpos
    unfold __PHYSFS_platformEOF
    simp only [hlen, hpos]
    by_cases h0 : len = 0
    · simp [h0]
    · have hne : pos ≠ -1 := by omega
      by_cases hpl : pos = len
      · subst hpl
        simp [h0, hne]
      · simp [h0, hne, hpl]

/-- C1, at a concrete platform: a file of length 0 is at EOF; a file of length 10
with the pointer at 4 is not. -/
theorem platformEOF_iff_witness :
    __PHYSFS_platformEOF sampleOs readHandle =
        ⟨[.GetFileInformationByHandleEx 7], .returned 1⟩ ∧
      ∃ r : Int, (__PHYSFS_platformEOF shortOs readHandle).result = .returned r ∧
        (r ≠ 0 ↔ ((10 : Int) = 0 ∨ (4 : Int) = 10)) :=
  ⟨(platformEOF_iff sampleOs readHandle 0 rfl).1 rfl,
   (platformEOF_iff shortOs readHandle 10 rfl).2 4 rfl⟩

theorem winApiStrError_none (os : Win32) (h : os.pFormatMessageW = none) :
    winApiStrError os = none := by
  unfold winApiStrError
  rw [h]

theorem winApiStrError_some (os : Win32) (h : os.pFormatMessageW ≠ none) :
    ∃ err, winApiStrError os = some err := by
  unfold winApiStrError
  cases hp : os.pFormatMessageW with
  | none => exact absurd hp h
  | some f => exact ⟨_, rfl⟩

/-- C3: every call of `__PHYSFS_platformWrite` makes exactly one `WriteFile`
request; when the request succeeds with fewer bytes than asked for, the call
returns `bytesWritten / size`, which is below `count`; -1 is returned only when
`WriteFile` fails. -/
theorem platformWrite_single_request (os : Win32) (fh : WinApiFile) (size count : Nat) :
    (__PHYSFS_platformWrite os fh size count).trace.filter isWriteFile =
        [.WriteFile fh.handle ((count * size) % 2 ^ 32)] ∧
      ((os.WriteFile fh.handle ((count * size) % 2 ^ 32)).1 ≠ 0 →
        (os.WriteFile fh.handle ((count * size) % 2 ^ 32)).2 % 2 ^ 32 < (count * size) % 2 ^ 32 →
        __PHYSFS_platformWrite os fh size count =
            ⟨[.WriteFile fh.handle ((count * size) % 2 ^ 32)],
              .returned (((os.WriteFile fh.handle ((count * size) % 2 ^ 32)).2 % 2 ^ 32 / size : Nat)
                : Int)⟩ ∧
          (os.WriteFile fh.handle ((count * size) % 2 ^ 32)).2 % 2 ^ 32 / size < count) ∧
      ((__PHYSFS_platformWrite os fh size count).result = .returned (-1) →
        (os.WriteFile fh.handle ((count * size) % 2 ^ 32)).1 = 0) := by
  unfold __PHYSFS_platformWrite
  dsimp only
  generalize os.WriteFile fh.handle ((count * size) % 2 ^ 32) = r
  obtain ⟨ok, put⟩ := r
  dsimp only
  have hnn : (0 : Int) ≤ ((put % 2 ^ 32 / size : Nat) : Int) := Int.natCast_nonneg _
  generalize winApiStrError os = w
  refine ⟨?_, ?_, ?_⟩
  · cases w <;> dsimp only <;> split_ifs <;> simp [isWriteFile]
  · intro hok hlt
    have hs : size ≠ 0 := by
      rintro rfl
      simp at hlt
    have hle : (count * size) % 2 ^ 32 ≤ size * count := by
      rw [Nat.mul_comm size count]
      exact Nat.mod_le _ _
    refine ⟨?_, Nat.div_lt_of_lt_mul (lt_of_lt_of_le hlt hle)⟩
    simp only [hok, hs, if_false]
  · by_cases hok : ok = 0
    · intro _; exact hok
    · rw [if_neg hok]
      by_cases hs : size = 0
      · rw [if_pos hs]
        intro h; cases h
      · rw [if_neg hs]
        intro h
        injection h with h
        rw [h] at hnn
        exact absurd hnn (by decide)

/-- C3 at a concrete platform: 10 bytes asked for, 6 written, 3 objects of 2 bytes
reported, one request in the trace. -/
theorem platformWrite_single_request_witness :
    (__PHYSFS_platformWrite shortOs writeHandle 2 5).trace.filter isWriteFile =
        [.WriteFile 7 10] ∧
      __PHYSFS_platformWrite shortOs writeHandle 2 5 = ⟨[.WriteFile 7 10], .returned 3⟩ :=
  ⟨(platformWrite_single_request shortOs writeHandle 2 5).1,
   ((platformWrite_single_request shortOs writeHandle 2 5).2.1 (by decide) (by decide)).1⟩

/-- A handle made by `doOpen` carries the `rdonly` flag it was asked for. -/
theorem doOpen_readonly (os : Win32) (fname : Option (List Nat)) (mode creation : Nat)
    (rdonly : Int) (f : WinApiFile)
    (h : (doOpen os fname mode creation rdonly).result = .returned (some f)) :
    f.readonly = rdonly := by
  unfold doOpen at h
  cases hu : UTF8_TO_UNICODE_STACK_MACRO os fname with
  | none => rw [hu] at h; cases h
  | some wfname =>
    rw [hu] at h
    dsimp only at h
    by_cases hinv : os.CreateFile2 wfname mode creation = INVALID_HANDLE_VALUE
    · rw [if_pos hinv] at h
      cases hw : winApiStrError os with
      | none => rw [hw] at h; cases h
      | some err => rw [hw] at h; cases h
    · rw [if_neg hinv] at h
      cases hm : os.Malloc sizeofWinApiFile with
      | none => rw [hm] at h; cases h
      | some b => rw [hm] at h; cases h; rfl

/-- C4 is not met when `pFormatMessageW` is `NULL`. `__PHYSFS_platformFlush` on a
read-only handle returns 1 with no external call at all; on a writable handle
it calls `FlushFileBuffers` once and returns 1 when that succeeds; when it
fails the call returns 0 with the platform error text set only if
`pFormatMessageW` is not `NULL`, and with the pointer `NULL` it ends in the call
through that pointer (line 328) and returns nothing. So the result is 0
exactly when the handle is writable, the flush fails and the pointer is not
`NULL`. Handles from `__PHYSFS_platformOpenRead` are read-only, those from
`__PHYSFS_platformOpenWrite` writable. The pointer is `NULL` after the run of
`__PHYSFS_platformInit` in which no library loads, which returns 1. -/
theorem platformFlush_spec (os : Win32) (fh : WinApiFile) :
    (fh.readonly ≠ 0 → __PHYSFS_platformFlush os fh = ⟨[], .returned 1⟩) ∧
      (fh.readonly = 0 → os.FlushFileBuffers fh.handle ≠ 0 →
        __PHYSFS_platformFlush os fh = ⟨[.FlushFileBuffers fh.handle], .returned 1⟩) ∧
      (fh.readonly = 0 → os.FlushFileBuffers fh.handle = 0 → os.pFormatMessageW ≠ none →
        ∃ err, winApiStrError os = some err ∧
          __PHYSFS_platformFlush os fh =
            ⟨[.FlushFileBuffers fh.handle, .setError (.text err)], .returned 0⟩) ∧
      (fh.readonly = 0 → os.FlushFileBuffers fh.handle = 0 → os.pFormatMessageW = none →
        __PHYSFS_platformFlush os fh = ⟨[.FlushFileBuffers fh.handle], .undefined⟩) ∧
      ((__PHYSFS_platformFlush os fh).result = .returned 0 ↔
        (fh.readonly = 0 ∧ os.FlushFileBuffers fh.handle = 0 ∧ os.pFormatMessageW ≠ none)) ∧
      (∀ (filename : Option (List Nat)) (f : WinApiFile),
        (__PHYSFS_platformOpenRead os filename).result = .returned (some f) →
          __PHYSFS_platformFlush os f = ⟨[], .returned 1⟩) ∧
      (∀ (filename : Option (List Nat)) (f : WinApiFile),
        (__PHYSFS_platformOpenWrite os filename).result = .returned (some f) →
          f.readonly = 0) ∧
      (__PHYSFS_platformInit emptyLoader failingOs initialGlobals).2.result = .returned 1 ∧
      (__PHYSFS_platformInit emptyLoader failingOs initialGlobals).1.pFormatMessageW = none ∧
      __PHYSFS_platformFlush
          (withGlobals (__PHYSFS_platformInit emptyLoader failingOs initialGlobals).1 failingOs)
          writeHandle =
        ⟨[.FlushFileBuffers 7], .undefined⟩ := by
  refine ⟨?_, ?_, ?_, ?_, ?_, ?_, ?_, by decide, by decide, by decide⟩
  · intro h
    unfold __PHYSFS_platformFlush
    simp [h]
  · intro h hf
    unfold __PHYSFS_platformFlush
    simp [h, hf]
  · intro h hf hp
    obtain ⟨err, herr⟩ := winApiStrError_some os hp
    refine ⟨err, herr, ?_⟩
    unfold __PHYSFS_platformFlush
    simp [h, hf, herr]
  · intro h hf hp
    unfold __PHYSFS_platformFlush
    simp [h, hf, winApiStrError_none os hp]
  · unfold __PHYSFS_platformFlush
    by_cases h : fh.readonly = 0
    · by_cases hf : os.FlushFileBuffers fh.handle = 0
      · by_cases hp : os.pFormatMessageW = none
        · simp [h, hf, hp, winApiStrError_none os hp]
        · obtain ⟨err, herr⟩ := winApiStrError_some os hp
          simp [h, hf, hp, herr]
      · simp [h, hf]
    · simp [h]
  · intro filename f hf
    have hro := doOpen_readonly os filename GENERIC_READ OPEN_EXISTING 1 f hf
    unfold __PHYSFS_platformFlush
    simp [hro]
  · intro filename f hf
    exact doOpen_readonly os filename GENERIC_WRITE CREATE_ALWAYS 0 f hf

/-- C4 at concrete handles: a read-only handle is flushed without any external
call even on a platform whose flush fails; a writable handle gets 0 and the
error text there, 1 where the flush succeeds, and no result where the flush
fails with `pFormatMessageW` `NULL`. -/
theorem platformFlush_spec_witness :
    __PHYSFS_platformFlush failingOs readHandle = ⟨[], .returned 1⟩ ∧
      (∃ err, winApiStrError failingOs = some err ∧
        __PHYSFS_platformFlush failingOs writeHandle =
          ⟨[.FlushFileBuffers 7, .setError (.text err)], .returned 0⟩) ∧
      __PHYSFS_platformFlush sampleOs writeHandle = ⟨[.FlushFileBuffers 7], .returned 1⟩ ∧
      __PHYSFS_platformFlush unresolvedOs writeHandle = ⟨[.FlushFileBuffers 7], .undefined⟩ :=
  ⟨(platformFlush_spec failingOs readHandle).1 (by decide),
   (platformFlush_spec failingOs writeHandle).2.2.1 rfl rfl (fun h => Option.noConfusion h),
   (platformFlush_spec sampleOs writeHandle).2.1 rfl (by decide),
   (platformFlush_spec unresolvedOs writeHandle).2.2.2.1 rfl rfl rfl⟩

/-- C8 is not met: when `doOpen` gives a handle and `SetFilePointerEx` fails
(answers `FALSE`, 0), `__PHYSFS_platformOpenAppend` still returns the handle, and
neither closes it, nor frees the record, nor sets an error. -/
theorem platformOpenAppend_ignores_seek_failure (os : Win32) (filename : Option (List Nat))
    (f : WinApiFile)
    (hopen : (doOpen os filename GENERIC_WRITE OPEN_ALWAYS 0).result = .returned (some f))
    (hfail : (os.SetFilePointerEx f.handle 0 0 FILE_END).1 = 0) :
    __PHYSFS_platformOpenAppend os filename =
      ⟨(doOpen os filename GENERIC_WRITE OPEN_ALWAYS 0).trace ++
        [.SetFilePointerEx f.handle 0 0 FILE_END], .returned (some f)⟩ := by
  unfold __PHYSFS_platformOpenAppend
  simp only [hopen, hfail]
  rfl

/-- C8 at a concrete platform: the file opens with handle 7, positioning fails,
and the handle is returned after three external calls, none of them a close, a
free or an error report. -/
theorem platformOpenAppend_ignores_seek_failure_witness :
    (failingOs.SetFilePointerEx 7 0 0 FILE_END).1 = 0 ∧
      __PHYSFS_platformOpenAppend failingOs (some [97]) =
        ⟨[.CreateFile2 [97] GENERIC_WRITE OPEN_ALWAYS, .Malloc sizeofWinApiFile,
          .SetFilePointerEx 7 0 0 FILE_END], .returned (some writeHandle)⟩ :=
  ⟨rfl, platformOpenAppend_ignores_seek_failure failingOs (some [97]) writeHandle rfl rfl⟩

/-- C9 is not met: when `SetFilePointerEx` fails, `__PHYSFS_platformTell` returns
0, and when `GetFileInformationByHandleEx` fails, `__PHYSFS_platformFileLength`
returns the value of a local that was never assigned; neither sets an error. -/
theorem platformTell_failure_returns_zero (os : Win32) (fh : WinApiFile)
    (hseek : (os.SetFilePointerEx fh.handle 0 0 FILE_CURRENT).1 = 0)
    (hinfo : (os.GetFileInformationByHandleEx fh.handle).1 = 0) :
    __PHYSFS_platformTell os fh = ⟨[.SetFilePointerEx fh.handle 0 0 FILE_CURRENT], .returned 0⟩ ∧
      __PHYSFS_platformFileLength os fh =
        ⟨[.GetFileInformationByHandleEx fh.handle], .returned os.indeterminate⟩ := by
  unfold __PHYSFS_platformTell __PHYSFS_platformFileLength
  simp [hseek, hinfo]

/-- C9 at a concrete platform on which both queries fail: the position is
reported as 0, and the length as whatever the local held, here 3. -/
theorem platformTell_failure_returns_zero_witness :
    (__PHYSFS_platformTell failingOs readHandle).result = .returned 0 ∧
      (__PHYSFS_platformFileLength { failingOs with indeterminate := 3 } readHandle).result =
        .returned 3 :=
  ⟨congrArg Run.result (platformTell_failure_returns_zero failingOs readHandle rfl rfl).1,
   congrArg Run.result
     (platformTell_failure_returns_zero { failingOs with indeterminate := 3 } readHandle
       rfl rfl).2⟩

theorem cstr_eq_dot (fn : List Nat) :
    (fn.getD 0 0 = DOT ∧ fn.getD 1 0 = 0) ↔ cstr fn = [46] := by
  rcases fn with _ | ⟨a, _ | ⟨b, t⟩⟩
  · simp [cstr, DOT]
  · by_cases ha : a = 0
    · simp [cstr, DOT, ha]
    · simp [cstr, DOT, ha, List.takeWhile]
  · by_cases ha : a = 0
    · simp [cstr, DOT, ha]
    · by_cases hb : b = 0
      · simp [cstr, DOT, ha, hb, List.takeWhile]
      · simp [cstr, DOT, ha, hb, List.takeWhile]

theorem cstr_eq_dotdot (fn : List Nat) :
    (fn.getD 0 0 = DOT ∧ fn.getD 1 0 = DOT ∧ fn.getD 2 0 = 0) ↔ cstr fn = [46, 46] := by
  rcases fn with _ | ⟨a, _ | ⟨b, _ | ⟨c, t⟩⟩⟩
  · simp [cstr, DOT]
  · by_cases ha : a = 0
    · simp [cstr, DOT, ha]
    · simp [cstr, DOT, ha, List.takeWhile]
  · by_cases ha : a = 0
    · simp [cstr, DOT, ha]
    · by_cases hb : b = 0
      · simp [cstr, DOT, ha, hb, List.takeWhile]
      · simp [cstr, DOT, ha, hb, List.takeWhile]
  · by_cases ha : a = 0
    · simp [cstr, DOT, ha]
    · by_cases hb : b = 0
      · simp [cstr, DOT, ha, hb, List.takeWhile]
      · by_cases hc : c = 0
        · simp [cstr, DOT, ha, hb, hc, List.takeWhile]
        · simp [cstr, DOT, ha, hb, hc, List.takeWhile]

theorem isSymlinkAttrs_ne_zero (e : FindData) :
    isSymlinkAttrs e.dwFileAttributes e.dwReserved0 ≠ 0 ↔ entryIsSymlink e := by
  unfold isSymlinkAttrs entryIsSymlink FILE_ATTRIBUTE_REPARSE_POINT PHYSFS_IO_REPARSE_TAG_SYMLINK
  split_ifs with h
  · simp [h]
  · simp [h]

theorem callbacks_append (a b : List Event) : callbacks (a ++ b) = callbacks a ++ callbacks b := by
  induction a with
  | nil => rfl
  | cons x t ih => cases x <;> simp [callbacks, ih]

theorem deliveredEntries_append (a b : List Event) :
    deliveredEntries (a ++ b) = deliveredEntries a ++ deliveredEntries b := by
  induction a with
  | nil => rfl
  | cons x t ih =>
    cases x with
    | FindFirstFile s d => cases d <;> simp [deliveredEntries, ih]
    | FindNextFile d => cases d <;> simp [deliveredEntries, ih]
    | _ => simp [deliveredEntries, ih]

theorem entryNameToUtf8_cases (os : Win32) (unicode : Bool) (e : FindData) :
    callbacks (entryNameToUtf8 os unicode e.cFileName).trace = [] ∧
      deliveredEntries (entryNameToUtf8 os unicode e.cFileName).trace = [] ∧
      ((entryNameToUtf8 os unicode e.cFileName).result = .returned none ∨
        (entryNameToUtf8 os unicode e.cFileName).result =
          .returned (some (entryUtf8 os unicode e))) := by
  unfold entryNameToUtf8 entryUtf8
  cases unicode
  · simp only [Bool.false_eq_true, if_false, codepageToUtf8Heap]
    split_ifs
    · cases os.Malloc (((cstr e.cFileName).length + 1) * 4) <;>
        simp [callbacks, deliveredEntries]
    · simp [callbacks, deliveredEntries]
  · simp only [if_true, unicodeToUtf8Heap]
    cases os.Malloc (wStrLen e.cFileName * 4 + 1) <;> simp [callbacks, deliveredEntries]

theorem enumerateEntry_eq (os : Win32) (unicode : Bool) (omitSymLinks : Int) (callbackdata : Nat)
    (origdir : List Nat) (ent : FindData)
    (hconv : ∀ e : FindData, (entryNameToUtf8 os unicode e.cFileName).result ≠ .returned none) :
    callbacks (enumerateEntry os unicode omitSymLinks callbackdata origdir ent) =
        (if entryReported omitSymLinks ent then
          [(callbackdata, origdir, entryUtf8 os unicode ent)] else []) ∧
      deliveredEntries (enumerateEntry os unicode omitSymLinks callbackdata origdir ent) = [] := by
  unfold enumerateEntry entryReported
  dsimp only
  simp only [cstr_eq_dot, cstr_eq_dotdot, isSymlinkAttrs_ne_zero]
  by_cases h1 : cstr ent.cFileName = [46]
  · simp [h1, callbacks, deliveredEntries]
  · by_cases h2 : cstr ent.cFileName = [46, 46]
    · simp [h1, h2, callbacks, deliveredEntries]
    · by_cases h3 : omitSymLinks ≠ 0 ∧ entryIsSymlink ent
      · have : ¬ (omitSymLinks ≠ 0 → ¬ entryIsSymlink ent) := by
          intro h; exact h h3.1 h3.2
        simp [h1, h2, h3, callbacks, deliveredEntries, this]
      · have h3b : (omitSymLinks ≠ 0 → ¬ entryIsSymlink ent) := by
          intro ho hs; exact h3 ⟨ho, hs⟩
        simp only [h1, h2, h3, if_false, ne_eq, not_false_eq_true, true_and, h3b, if_true]
        obtain ⟨hc, hd, hr⟩ := entryNameToUtf8_cases os unicode ent
        rcases hr with hr | hr
        · exact absurd hr (hconv ent)
        · simp only [ne_eq] at h3b
          simp only [hr, callbacks_append, deliveredEntries_append, hc, hd, callbacks,
            deliveredEntries, List.nil_append, and_true]
          exact (if_pos h3b).symm

theorem enumerateLoop_eq (os : Win32) (unicode : Bool) (omitSymLinks : Int) (callbackdata : Nat)
    (origdir : List Nat)
    (hconv : ∀ e : FindData, (entryNameToUtf8 os unicode e.cFileName).result ≠ .returned none)
    (rest : List FindData) : ∀ ent : FindData,
    callbacks (enumerateLoop os unicode omitSymLinks callbackdata origdir ent rest) =
        ((ent :: rest).filter (fun e => decide (entryReported omitSymLinks e))).map
          (fun e => (callbackdata, origdir, entryUtf8 os unicode e)) ∧
      deliveredEntries (enumerateLoop os unicode omitSymLinks callbackdata origdir ent rest) =
        rest := by
  induction rest with
  | nil =>
    intro ent
    obtain ⟨hc, hd⟩ := enumerateEntry_eq os unicode omitSymLinks callbackdata origdir ent hconv
    unfold enumerateLoop
    rw [callbacks_append, deliveredEntries_append, hc, hd]
    by_cases h : entryReported omitSymLinks ent
    · simp [h, callbacks, deliveredEntries]
    · simp [h, callbacks, deliveredEntries]
  | cons next rest ih =>
    intro ent
    obtain ⟨hc, hd⟩ := enumerateEntry_eq os unicode omitSymLinks callbackdata origdir ent hconv
    obtain ⟨ihc, ihd⟩ := ih next
    unfold enumerateLoop
    rw [callbacks_append, deliveredEntries_append, hc, hd]
    simp only [callbacks, deliveredEntries, ihc, ihd]
    by_cases h : entryReported omitSymLinks ent
    · simp [h, List.filter_cons]
    · simp [h, List.filter_cons]

/-- With every allocation succeeding and a non-empty `dirname`, the find calls
of `__PHYSFS_platformEnumerateFiles` deliver every entry the platform has for
the search path made of `dirname`, a backslash and `*`. -/
theorem platformEnumerateFiles_delivered (os : Win32) (dirname : List Nat) (omitSymLinks : Int)
    (callbackdata : Nat) (origdir : List Nat)
    (hmalloc : ∀ n, (os.Malloc n).isSome = true) (hsmall : ∀ n, os.smallAlloc n = true)
    (hne : dirname ≠ []) :
    deliveredEntries
        (__PHYSFS_platformEnumerateFiles os dirname omitSymLinks callbackdata origdir).trace =
      if (os.pFindFirstFileW && os.pFindNextFileW) = true then
        os.findFilesW (os.utf8ToUcs2
          ((if dirname.getD (dirname.length - 1) 0 ≠ BACKSLASH then dirname ++ [BACKSLASH]
            else dirname) ++ [STAR]))
      else
        os.findFilesA (os.WideCharToMultiByte (os.utf8ToUcs2
          ((if dirname.getD (dirname.length - 1) 0 ≠ BACKSLASH then dirname ++ [BACKSLASH]
            else dirname) ++ [STAR]))) := by
  have hconv : ∀ (u : Bool) (e : FindData),
      (entryNameToUtf8 os u e.cFileName).result ≠ .returned none := by
    intro u e
    unfold entryNameToUtf8
    cases u
    · obtain ⟨g, hg⟩ := Option.isSome_iff_exists.mp (hmalloc (((cstr e.cFileName).length + 1) * 4))
      simp [codepageToUtf8Heap, hsmall, hg]
    · obtain ⟨g, hg⟩ := Option.isSome_iff_exists.mp (hmalloc (wStrLen e.cFileName * 4 + 1))
      simp [unicodeToUtf8Heap, hg]
  have hlen : dirname.length ≠ 0 := fun h => hne (List.length_eq_zero.mp h)
  unfold __PHYSFS_platformEnumerateFiles
  simp only [hsmall, if_true, UTF8_TO_UNICODE_STACK_MACRO, hlen, if_false]
  generalize (if dirname.getD (dirname.length - 1) 0 ≠ BACKSLASH then dirname ++ [BACKSLASH]
    else dirname) ++ [STAR] = searchPath
  cases hu : (os.pFindFirstFileW && os.pFindNextFileW)
  · simp only [Bool.false_eq_true, if_false]
    cases hf : os.findFilesA (os.WideCharToMultiByte (os.utf8ToUcs2 searchPath)) with
    | nil => simp [deliveredEntries]
    | cons ent rest =>
      obtain ⟨_, hd⟩ := enumerateLoop_eq os false omitSymLinks callbackdata origdir
        (hconv false) rest ent
      simp [deliveredEntries, deliveredEntries_append, hd]
  · simp only [if_true]
    cases hf : os.findFilesW (os.utf8ToUcs2 searchPath) with
    | nil => simp [deliveredEntries]
    | cons ent rest =>
      obtain ⟨_, hd⟩ := enumerateLoop_eq os true omitSymLinks callbackdata origdir
        (hconv true) rest ent
      simp [deliveredEntries, deliveredEntries_append, hd]

/-- C6: when the conversion of entry names to UTF-8 never fails, the callbacks that
`__PHYSFS_platformEnumerateFiles` makes are, in order, one for each entry the find
calls delivered whose name is neither `.` nor `..` and which is no symlink when
`omitSymLinks` is non-zero (symlinks are reported when it is zero); each callback
gets the caller's `callbackdata` and `origdir` and the UTF-8 name of its entry. -/
theorem platformEnumerateFiles_callbacks (os : Win32) (dirname : List Nat) (omitSymLinks : Int)
    (callbackdata : Nat) (origdir : List Nat)
    (hconv : ∀ e : FindData,
      (entryNameToUtf8 os (os.pFindFirstFileW && os.pFindNextFileW) e.cFileName).result ≠
        .returned none) :
    callbacks (__PHYSFS_platformEnumerateFiles os dirname omitSymLinks callbackdata origdir).trace =
      ((deliveredEntries
          (__PHYSFS_platformEnumerateFiles os dirname omitSymLinks callbackdata origdir).trace).filter
        (fun e => decide (entryReported omitSymLinks e))).map
        (fun e => (callbackdata, origdir,
          entryUtf8 os (os.pFindFirstFileW && os.pFindNextFileW) e)) := by
  unfold __PHYSFS_platformEnumerateFiles
  dsimp only
  by_cases h1 : os.smallAlloc (dirname.length + 3) = true
  · by_cases h2 : dirname.length = 0
    · rw [if_pos h1, if_pos h2]
      rfl
    · simp only [h1, h2, if_true, if_false]
      generalize (if dirname.getD (dirname.length - 1) 0 ≠ BACKSLASH then dirname ++ [BACKSLASH]
        else dirname) ++ [STAR] = searchPath
      cases hw : UTF8_TO_UNICODE_STACK_MACRO os (some searchPath) with
      | none => simp [callbacks, deliveredEntries]
      | some wSearchPath =>
        cases hu : (os.pFindFirstFileW && os.pFindNextFileW)
        · rw [hu] at hconv
          simp only [Bool.false_eq_true, if_false]
          by_cases h3 : os.smallAlloc (wStrLen wSearchPath + 1) = true
          · simp only [h3, if_true]
            cases hf : os.findFilesA (os.WideCharToMultiByte wSearchPath) with
            | nil => simp [callbacks, deliveredEntries]
            | cons ent rest =>
              obtain ⟨hc, hd⟩ := enumerateLoop_eq os false omitSymLinks callbackdata origdir
                hconv rest ent
              simp only [callbacks, deliveredEntries, callbacks_append, deliveredEntries_append,
                hc, hd, List.append_nil]
          · simp [h3, callbacks, deliveredEntries]
        · rw [hu] at hconv
          simp only [if_true]
          cases hf : os.findFilesW wSearchPath with
          | nil => simp [callbacks, deliveredEntries]
          | cons ent rest =>
            obtain ⟨hc, hd⟩ := enumerateLoop_eq os true omitSymLinks callbackdata origdir
              hconv rest ent
            simp only [callbacks, deliveredEntries, callbacks_append, deliveredEntries_append,
              hc, hd, List.append_nil]
  · simp [h1, callbacks, deliveredEntries]

theorem strchr_none (s : List Nat) (c : Nat) (h : strchr s c = none) : c ∉ s := by
  induction s with
  | nil => simp
  | cons x xs ih =>
    unfold strchr at h
    split_ifs at h with hx
    simp only [Option.map_eq_none'] at h
    simp only [List.mem_cons, not_or]
    exact ⟨fun hc => hx hc.symm, ih h⟩

theorem strchr_some (s : List Nat) (c : Nat) :
    ∀ i, strchr s c = some i → ∃ a b, s = a ++ c :: b ∧ a.length = i ∧ c ∉ a := by
  induction s with
  | nil => intro i h; simp [strchr] at h
  | cons x xs ih =>
    intro i h
    unfold strchr at h
    split_ifs at h with hx
    · cases h
      exact ⟨[], xs, by simp [hx], rfl, by simp⟩
    · simp only [Option.map_eq_some'] at h
      obtain ⟨j, hj, rfl⟩ := h
      obtain ⟨a, b, hs, hl, hn⟩ := ih j hj
      refine ⟨x :: a, b, by simp [hs], by simp [hl], ?_⟩
      simp only [List.mem_cons, not_or]
      exact ⟨fun hc => hx hc.symm, hn⟩

theorem map_slash_of_not_mem (s : List Nat) (h : SLASH ∉ s) :
    s.map (fun c => if c = SLASH then BACKSLASH else c) = s := by
  induction s with
  | nil => rfl
  | cons x xs ih =>
    simp only [List.mem_cons, not_or] at h
    have hx : x ≠ SLASH := fun e => h.1 e.symm
    simp [hx, ih h.2]

theorem cvtLoop_eq (fuel : Nat) : ∀ (pre suf : List Nat) (q : Option Nat),
    suf.length < fuel → q = (strchr suf SLASH).map (fun i => pre.length + i) →
    cvtLoop fuel (pre ++ suf) q =
      some (pre ++ suf.map (fun c => if c = SLASH then BACKSLASH else c)) := by
  induction fuel with
  | zero => intro pre suf q h; omega
  | succ fuel ih =>
    intro pre suf q hfuel hq
    cases hs : strchr suf SLASH with
    | none =>
      rw [hs] at hq
      subst hq
      have := strchr_none suf SLASH hs
      simp [cvtLoop, map_slash_of_not_mem suf this]
    | some i =>
      rw [hs] at hq
      subst hq
      obtain ⟨a, b, hab, hl, hn⟩ := strchr_some suf SLASH i hs
      subst hab
      simp only [Option.map_some', cvtLoop]
      have hset : (pre ++ (a ++ SLASH :: b)).set (pre.length + i) BACKSLASH =
          (pre ++ a ++ [BACKSLASH]) ++ b := by
        rw [← List.append_assoc, ← hl]
        have : pre.length + a.length = (pre ++ a).length := by simp
        rw [this, List.set_append_right _ _ (le_refl _)]
        simp
      have hdrop : ((pre ++ a ++ [BACKSLASH]) ++ b).drop (pre.length + i + 1) = b := by
        have : pre.length + i + 1 = (pre ++ a ++ [BACKSLASH]).length := by
          simp only [List.length_append, List.length_singleton, hl]
        rw [this, List.drop_left]
      rw [hset, hdrop]
      have hlen : b.length < fuel := by
        simp only [List.length_append, List.length_cons] at hfuel
        omega
      have := ih (pre ++ a ++ [BACKSLASH]) b
        ((strchr b SLASH).map (fun i_1 => pre.length + i + 1 + i_1)) hlen
        (by simp only [List.length_append, List.length_singleton, hl])
      rw [this]
      simp [map_slash_of_not_mem a hn]

/-- C6 at a concrete directory: of the entries `.`, `..`, `a`, the symlink `l` and
the reparse point `m` with another tag, the callback gets `a` and `m` when
symlinks are omitted, and `a`, `l` and `m` when they are not. -/
theorem platformEnumerateFiles_callbacks_witness :
    callbacks (__PHYSFS_platformEnumerateFiles dirOs [100] 1 9 [111]).trace =
        [(9, [111], [97]), (9, [111], [109])] ∧
      callbacks (__PHYSFS_platformEnumerateFiles dirOs [100] 0 9 [111]).trace =
        [(9, [111], [97]), (9, [111], [108]), (9, [111], [109])] ∧
      deliveredEntries (__PHYSFS_platformEnumerateFiles dirOs [100] 1 9 [111]).trace =
        dirOs.findFilesW [100, 92, 42] := by
  have hconv : ∀ e : FindData,
      (entryNameToUtf8 dirOs (dirOs.pFindFirstFileW && dirOs.pFindNextFileW) e.cFileName).result ≠
        .returned none := by
    intro e h
    cases h
  have h1 := platformEnumerateFiles_callbacks dirOs [100] 1 9 [111] hconv
  have h0 := platformEnumerateFiles_callbacks dirOs [100] 0 9 [111] hconv
  refine ⟨?_, ?_, ?_⟩
  · rw [h1]; decide
  · rw [h0]; decide
  · decide

/-- C7: `__PHYSFS_platformCvtToDependent` returns `NULL` when its allocation
fails and otherwise the concatenation of `prepend` (empty when `NULL`), `dirName`
and `append` (empty when `NULL`) with every `/` (47) replaced by a backslash (92)
and every other character kept; that string has the length of the concatenation
and holds no `/`. -/
theorem platformCvtToDependent_spec (os : Win32) (prepend : Option (List Nat))
    (dirName : List Nat) (append : Option (List Nat)) :
    (__PHYSFS_platformCvtToDependent os prepend dirName append).result =
        .returned
          ((os.Malloc ((prepend.getD []).length + (append.getD []).length + dirName.length + 1)).map
            (fun _ => (prepend.getD [] ++ dirName ++ append.getD []).map
              (fun c => if c = 47 then 92 else c))) ∧
      ((prepend.getD [] ++ dirName ++ append.getD []).map
          (fun c => if c = 47 then 92 else c)).length =
        (prepend.getD [] ++ dirName ++ append.getD []).length ∧
      47 ∉ (prepend.getD [] ++ dirName ++ append.getD []).map
        (fun c => if c = 47 then 92 else c) := by
  refine ⟨?_, by simp, ?_⟩
  · have hloop : ∀ s : List Nat, cvtLoop (s.length + 1) s (strchr s SLASH) =
        some (s.map (fun c => if c = 47 then 92 else c)) := by
      intro s
      have := cvtLoop_eq (s.length + 1) [] s (strchr s SLASH) (Nat.lt_succ_self _) (by simp)
      simpa [SLASH, BACKSLASH] using this
    unfold __PHYSFS_platformCvtToDependent
    cases prepend <;> cases append <;>
      simp only [Option.getD_none, Option.getD_some, List.length_nil, List.nil_append,
        List.append_nil, Nat.zero_add, Nat.add_zero, hloop] <;>
      cases os.Malloc _ <;> rfl
  · intro h
    simp only [List.mem_map] at h
    obtain ⟨c, _, hc⟩ := h
    split_ifs at hc with h47
    · exact absurd hc (by decide)
    · exact h47 hc

/-- C7 at a concrete call: `a/b` then `c/d/` and no `append`. -/
theorem platformCvtToDependent_spec_witness :
    (__PHYSFS_platformCvtToDependent sampleOs (some [97, 47, 98]) [99, 47, 100, 47] none).result =
      .returned (some [97, 92, 98, 99, 92, 100, 92]) :=
  (platformCvtToDependent_spec sampleOs (some [97, 47, 98]) [99, 47, 100, 47] none).1

theorem freshBlock_length (n : Nat) (g : List Nat) : (freshBlock n g).length = n := by
  unfold freshBlock
  simp only [List.length_append, List.length_take, List.length_replicate]
  omega

theorem cstr_of_not_mem (s : List Nat) (h : 0 ∉ s) : cstr s = s := by
  unfold cstr
  rw [List.takeWhile_eq_self_iff]
  intro x hx
  have : x ≠ 0 := fun e => h (e ▸ hx)
  simpa using this

theorem strcpyAt_overrun (buf : List Nat) (off : Nat) (src : List Nat)
    (h : buf.length < off + (cstr src).length + 1) : strcpyAt buf off src = none := by
  unfold strcpyAt writeAt
  rw [if_neg]
  simp only [List.length_append, List.length_singleton]
  omega

/-- An absolute path in the `\\server\share` form that has `MAX_PATH` characters
or more does not fit the block: `strcpy` writes past its end. -/
theorem platformRealPath_unc_overrun (fuel : Nat) (os : Win32) (path g : List Nat)
    (hm : os.Malloc MAX_PATH = some g) (h0 : path.getD 0 0 = BACKSLASH)
    (h1 : path.getD 1 0 = BACKSLASH) (hn : 0 ∉ path) (hlen : MAX_PATH ≤ path.length) :
    __PHYSFS_platformRealPath fuel os (some path) = ⟨[.Malloc MAX_PATH], .undefined⟩ := by
  have hcpy : strcpyAt (freshBlock MAX_PATH g) 0 path = none := by
    apply strcpyAt_overrun
    rw [freshBlock_length, cstr_of_not_mem path hn]
    omega
  have hne : ¬ path.getD 0 0 = 0 := by rw [h0]; decide
  unfold __PHYSFS_platformRealPath
  simp only [hne, if_false, hm, h0, h1, and_self, if_true, hcpy]
  rfl

/-- With a block full of the letter `x` from the allocator, the path
`\\s\a\..` makes the first round of the loop call `strlen` on the bytes after
the terminator, and that runs past the end of the block. -/
theorem platformRealPath_dotdot_overrun (fuel : Nat) :
    __PHYSFS_platformRealPath (fuel + 1) garbageOs (some [92, 92, 115, 92, 97, 92, 46, 46]) =
      ⟨[.Malloc MAX_PATH], .undefined⟩ := by
  have key : ∀ b, strcpyAt (freshBlock MAX_PATH (List.replicate MAX_PATH 120)) 0
      [92, 92, 115, 92, 97, 92, 46, 46] = some b → realPathStep b 0 = none := by
    intro b hb
    have h : (strcpyAt (freshBlock MAX_PATH (List.replicate MAX_PATH 120)) 0
        [92, 92, 115, 92, 97, 92, 46, 46]).bind (fun b => realPathStep b 0) = none := by
      decide
    rw [hb] at h
    exact h
  unfold __PHYSFS_platformRealPath
  show (if ([92, 92, 115, 92, 97, 92, 46, 46] : List Nat).getD 0 0 = 0 then _ else _) = _
  rw [if_neg (by decide)]
  show (if ([92, 92, 115, 92, 97, 92, 46, 46] : List Nat).getD 0 0 = BACKSLASH ∧
    ([92, 92, 115, 92, 97, 92, 46, 46] : List Nat).getD 1 0 = BACKSLASH then _ else _) = _
  rw [if_pos (by decide)]
  unfold realPathFinish
  cases hb : strcpyAt (freshBlock MAX_PATH (List.replicate MAX_PATH 120)) 0
      [92, 92, 115, 92, 97, 92, 46, 46] with
  | none => rfl
  | some b =>
    simp only [realPathLoop, key b hb]

/-- C10: `__PHYSFS_platformRealPath` answers a `NULL` path and an empty path with
`NULL` and the error `ERR_INVALID_ARGUMENT`, its only external call. But not
every non-empty path gets a string, even with every allocation succeeding: a
path of 260 characters overruns the `MAX_PATH` bytes of the block in `strcpy`,
and the path `\\s\a\..` makes the loop read past the end of a block that
holds no NUL after the string. A short path in a zeroed block is returned
normalised. -/
theorem platformRealPath_empty_and_overrun (fuel : Nat) (os : Win32) :
    __PHYSFS_platformRealPath fuel os none =
        ⟨[.setError .ERR_INVALID_ARGUMENT], .returned none⟩ ∧
      __PHYSFS_platformRealPath fuel os (some []) =
        ⟨[.setError .ERR_INVALID_ARGUMENT], .returned none⟩ ∧
      longPath.length = 260 ∧ 0 ∉ longPath ∧
      __PHYSFS_platformRealPath fuel sampleOs (some longPath) =
        ⟨[.Malloc MAX_PATH], .undefined⟩ ∧
      __PHYSFS_platformRealPath (fuel + 1) garbageOs (some [92, 92, 115, 92, 97, 92, 46, 46]) =
        ⟨[.Malloc MAX_PATH], .undefined⟩ ∧
      (__PHYSFS_platformRealPath 4 sampleOs (some [92, 92, 97, 92, 46, 92, 98])).result =
        .returned (some [92, 92, 97, 92, 98]) := by
  have hn : 0 ∉ longPath := by
    simp only [longPath, List.mem_cons, List.mem_replicate, not_or]
    omega
  have hl : longPath.length = 260 := by
    simp only [longPath, List.length_cons, List.length_replicate]
  exact ⟨rfl, rfl, hl, hn,
    platformRealPath_unc_overrun fuel sampleOs longPath _ rfl rfl rfl hn (by rw [hl]; decide),
    platformRealPath_dotdot_overrun fuel, by decide⟩

theorem LOWORDER_UINT64_eq (pos : Nat) : LOWORDER_UINT64 pos = pos % 2 ^ 32 := by
  unfold LOWORDER_UINT64
  have h : (0xFFFFFFFF : Nat) = 2 ^ 32 - 1 := by norm_num
  rw [h, Nat.and_pow_two_sub_one_eq_mod, Nat.mod_mod]

theorem HIGHORDER_UINT64_eq (pos : Nat) (hpos : pos < 2 ^ 64) :
    HIGHORDER_UINT64 pos = pos / 2 ^ 32 := by
  unfold HIGHORDER_UINT64
  have h : (0xFFFFFFFF : Nat) = 2 ^ 32 - 1 := by norm_num
  rw [h, Nat.and_pow_two_sub_one_eq_mod, Nat.mod_mod, Nat.shiftRight_eq_div_pow]
  apply Nat.mod_eq_of_lt
  omega

/-- C14: for every position below `2 ^ 64`, `__PHYSFS_platformSeek` makes one
`SetFilePointerEx` call from `FILE_BEGIN` whose low part is `pos mod 2 ^ 32` and
whose high part is `pos div 2 ^ 32`, so `high * 2 ^ 32 + low = pos`; it returns 0
exactly when that call fails with a last error other than `NO_ERROR`, and 1
in every other case. -/
theorem platformSeek_offset (os : Win32) (fh : WinApiFile) (pos : Nat) (hpos : pos < 2 ^ 64) :
    LOWORDER_UINT64 pos = pos % 2 ^ 32 ∧ HIGHORDER_UINT64 pos = pos / 2 ^ 32 ∧
      HIGHORDER_UINT64 pos * 2 ^ 32 + LOWORDER_UINT64 pos = pos ∧
      (__PHYSFS_platformSeek os fh pos).trace =
        [.SetFilePointerEx fh.handle (pos % 2 ^ 32) (pos / 2 ^ 32) FILE_BEGIN] ∧
      (__PHYSFS_platformSeek os fh pos).result =
        .returned (if (os.SetFilePointerEx fh.handle (pos % 2 ^ 32) (pos / 2 ^ 32) FILE_BEGIN).1 = 0 ∧
          os.GetLastError ≠ NO_ERROR then 0 else 1) := by
  have hlo := LOWORDER_UINT64_eq pos
  have hhi := HIGHORDER_UINT64_eq pos hpos
  refine ⟨hlo, hhi, ?_, ?_, ?_⟩
  · rw [hlo, hhi]
    exact Nat.div_add_mod' pos (2 ^ 32)
  · unfold __PHYSFS_platformSeek
    rw [hlo, hhi]
    dsimp only
    split_ifs <;> rfl
  · unfold __PHYSFS_platformSeek
    rw [hlo, hhi]
    dsimp only
    split_ifs <;> rfl

/-- C14 at the position `5 * 2 ^ 32 + 7`: the low part is 7, the high part 5, and
the call returns 1 on a platform where the seek succeeds. -/
theorem platformSeek_offset_witness :
    __PHYSFS_platformSeek sampleOs writeHandle (5 * 2 ^ 32 + 7) =
      ⟨[.SetFilePointerEx 7 7 5 FILE_BEGIN], .returned 1⟩ := by
  have h := platformSeek_offset sampleOs writeHandle (5 * 2 ^ 32 + 7) (by norm_num)
  have ht := h.2.2.2.1
  have hr := h.2.2.2.2
  have e1 : (5 * 2 ^ 32 + 7) % 2 ^ 32 = 7 := by norm_num
  have e2 : (5 * 2 ^ 32 + 7) / 2 ^ 32 = 5 := by norm_num
  rw [e1, e2] at ht hr
  cases hrun : __PHYSFS_platformSeek sampleOs writeHandle (5 * 2 ^ 32 + 7) with
  | mk tr res =>
    rw [hrun] at ht hr
    simp only at ht hr
    rw [ht, hr]
    rfl

/-- C15: for every size above 0 and every count, `__PHYSFS_platformRead` and
`__PHYSFS_platformWrite` ask the platform for `(count * size) mod 2 ^ 32` bytes,
and when the call succeeds having moved at most that many bytes, the object
count `r` they return satisfies `0 ≤ r ≤ count` and `r * size ≤` the bytes moved. -/
theorem platformReadWrite_count_bounds (os : Win32) (fh : WinApiFile) (size count : Nat)
    (hsize : 0 < size) :
    (__PHYSFS_platformRead os fh size count).trace.head? =
        some (.ReadFile fh.handle ((count * size) % 2 ^ 32)) ∧
      (__PHYSFS_platformWrite os fh size count).trace.head? =
        some (.WriteFile fh.handle ((count * size) % 2 ^ 32)) ∧
      ((os.ReadFile fh.handle ((count * size) % 2 ^ 32)).1 ≠ 0 →
        (os.ReadFile fh.handle ((count * size) % 2 ^ 32)).2 ≤ (count * size) % 2 ^ 32 →
        ∃ r : Nat, (__PHYSFS_platformRead os fh size count).result = .returned (r : Int) ∧
          (0 : Int) ≤ (r : Int) ∧ r ≤ count ∧
          r * size ≤ (os.ReadFile fh.handle ((count * size) % 2 ^ 32)).2) ∧
      ((os.WriteFile fh.handle ((count * size) % 2 ^ 32)).1 ≠ 0 →
        (os.WriteFile fh.handle ((count * size) % 2 ^ 32)).2 ≤ (count * size) % 2 ^ 32 →
        ∃ r : Nat, (__PHYSFS_platformWrite os fh size count).result = .returned (r : Int) ∧
          (0 : Int) ≤ (r : Int) ∧ r ≤ count ∧
          r * size ≤ (os.WriteFile fh.handle ((count * size) % 2 ^ 32)).2) := by
  have hs : size ≠ 0 := Nat.pos_iff_ne_zero.mp hsize
  have key : ∀ got : Nat, got ≤ (count * size) % 2 ^ 32 →
      got % 2 ^ 32 / size ≤ count ∧ got % 2 ^ 32 / size * size ≤ got := by
    intro got hgot
    have hlt : got < 2 ^ 32 := lt_of_le_of_lt hgot (Nat.mod_lt _ (by norm_num))
    rw [Nat.mod_eq_of_lt hlt]
    refine ⟨?_, Nat.div_mul_le_self got size⟩
    have h1 : got ≤ count * size := le_trans hgot (Nat.mod_le _ _)
    calc got / size ≤ count * size / size := Nat.div_le_div_right h1
      _ = count := Nat.mul_div_cancel count hsize
  refine ⟨?_, ?_, ?_, ?_⟩
  · unfold __PHYSFS_platformRead
    dsimp only
    generalize winApiStrError os = w
    cases w <;> dsimp only <;> split_ifs <;> rfl
  · unfold __PHYSFS_platformWrite
    dsimp only
    generalize winApiStrError os = w
    cases w <;> dsimp only <;> split_ifs <;> rfl
  · intro hok hle
    obtain ⟨h1, h2⟩ := key _ hle
    refine ⟨(os.ReadFile fh.handle ((count * size) % 2 ^ 32)).2 % 2 ^ 32 / size, ?_,
      Int.natCast_nonneg _, h1, h2⟩
    unfold __PHYSFS_platformRead
    dsimp only
    rw [if_neg hok, if_neg hs]
  · intro hok hle
    obtain ⟨h1, h2⟩ := key _ hle
    refine ⟨(os.WriteFile fh.handle ((count * size) % 2 ^ 32)).2 % 2 ^ 32 / size, ?_,
      Int.natCast_nonneg _, h1, h2⟩
    unfold __PHYSFS_platformWrite
    dsimp only
    rw [if_neg hok, if_neg hs]

/-- C15 at a concrete call: 5 objects of 2 bytes asked for, 6 bytes moved, 3
objects reported. -/
theorem platformReadWrite_count_bounds_witness :
    ∃ r : Nat, (__PHYSFS_platformRead shortOs readHandle 2 5).result = .returned (r : Int) ∧
      (0 : Int) ≤ (r : Int) ∧ r ≤ 5 ∧
      r * 2 ≤ (shortOs.ReadFile readHandle.handle ((5 * 2) % 2 ^ 32)).2 :=
  (platformReadWrite_count_bounds shortOs readHandle 2 5 (by decide)).2.2.1 (by decide)
    (by decide)

theorem determineUserDir_globals (ld : Loader) (os : Win32) (g : Globals) :
    (determineUserDir ld os g).1 = g ∨
      ∃ dir, (determineUserDir ld os g).1 = { g with userDir := some dir } := by
  unfold determineUserDir
  split
  · exact Or.inl rfl
  · split_ifs
    · dsimp only
      split
      · exact Or.inr ⟨_, rfl⟩
      · split
        · exact Or.inr ⟨_, rfl⟩
        all_goals exact Or.inl rfl
      all_goals exact Or.inl rfl
    · exact Or.inl rfl

theorem platformInit_globals (ld : Loader) (os : Win32) (g : Globals) :
    (__PHYSFS_platformInit ld os g).1 =
      (determineUserDir ld os (findApiSymbols ld (getOSInfo g).1).1).1 := by
  unfold __PHYSFS_platformInit
  have h1 : (getOSInfo g).2 = 1 := rfl
  have h2 : (findApiSymbols ld (getOSInfo g).1).2 = 1 := rfl
  simp only [h1, h2, one_ne_zero, if_false]

theorem findApiSymbols_pGetUserNameW (ld : Loader) (g : Globals) :
    (findApiSymbols ld g).1.pGetUserNameW = g.pGetUserNameW := by
  unfold findApiSymbols
  dsimp only
  split_ifs <;> rfl

/-- The pointer `pGetUserNameW` is left as it was by `__PHYSFS_platformInit`. -/
theorem platformInit_pGetUserNameW (ld : Loader) (os : Win32) (g : Globals) :
    (__PHYSFS_platformInit ld os g).1.pGetUserNameW = g.pGetUserNameW := by
  rw [platformInit_globals]
  rcases determineUserDir_globals ld os (findApiSymbols ld (getOSInfo g).1).1 with h | ⟨dir, h⟩
  · rw [h, findApiSymbols_pGetUserNameW]
    rfl
  · rw [h]
    show (findApiSymbols ld (getOSInfo g).1).1.pGetUserNameW = _
    rw [findApiSymbols_pGetUserNameW]
    rfl

theorem symLookup_fallback_ne_none (ld : Loader) (dll : Nat) (sym : Sym) (reallyLook : Int)
    (f : Proc) : symLookup ld dll sym reallyLook (some f) ≠ none := by
  unfold symLookup
  dsimp only
  split_ifs with h1 h2 h3 <;> simp_all

theorem findApiSymbols_kernel32 (ld : Loader) (g : Globals) :
    (ld.LoadPackagedLibrary .kernel32 ≠ 0 →
        (findApiSymbols ld g).1.pFormatMessageW ≠ none ∧
          (findApiSymbols ld g).1.pCreateDirectoryW ≠ none ∧
          (findApiSymbols ld g).1.pRemoveDirectoryW ≠ none ∧
          (findApiSymbols ld g).1.pDeleteFileW ≠ none) ∧
      (ld.LoadPackagedLibrary .kernel32 = 0 →
        (findApiSymbols ld g).1.pFormatMessageW = g.pFormatMessageW ∧
          (findApiSymbols ld g).1.pCreateDirectoryW = g.pCreateDirectoryW ∧
          (findApiSymbols ld g).1.pRemoveDirectoryW = g.pRemoveDirectoryW ∧
          (findApiSymbols ld g).1.pDeleteFileW = g.pDeleteFileW) := by
  unfold findApiSymbols
  dsimp only
  constructor
  · intro hk
    rw [if_pos hk]
    exact ⟨symLookup_fallback_ne_none _ _ _ _ _, symLookup_fallback_ne_none _ _ _ _ _,
      symLookup_fallback_ne_none _ _ _ _ _, symLookup_fallback_ne_none _ _ _ _ _⟩
  · intro hk
    rw [if_neg (not_not.mpr hk)]
    split_ifs <;> exact ⟨rfl, rfl, rfl, rfl⟩

/-- C18 is not met: after every run of `__PHYSFS_platformInit` from the start of
the program `pGetUserNameW` is `NULL`, so `__PHYSFS_platformGetUserName` calls
through a `NULL` pointer; and when `kernel32.dll` does not load, `pFormatMessageW`,
`pCreateDirectoryW`, `pRemoveDirectoryW` and `pDeleteFileW` are `NULL` as well.
Both happen in runs that return success. When `kernel32.dll` loads, those four
pointers are not `NULL`. -/
theorem platformInit_null_pointers (ld : Loader) (os : Win32) :
    (__PHYSFS_platformInit ld os initialGlobals).1.pGetUserNameW = none ∧
      (__PHYSFS_platformGetUserName ld os (__PHYSFS_platformInit ld os initialGlobals).1).result =
        .undefined ∧
      (ld.LoadPackagedLibrary .kernel32 = 0 →
        (__PHYSFS_platformInit ld os initialGlobals).1.pFormatMessageW = none ∧
          (__PHYSFS_platformInit ld os initialGlobals).1.pCreateDirectoryW = none ∧
          (__PHYSFS_platformInit ld os initialGlobals).1.pRemoveDirectoryW = none ∧
          (__PHYSFS_platformInit ld os initialGlobals).1.pDeleteFileW = none) ∧
      (ld.LoadPackagedLibrary .kernel32 ≠ 0 →
        (__PHYSFS_platformInit ld os initialGlobals).1.pFormatMessageW ≠ none ∧
          (__PHYSFS_platformInit ld os initialGlobals).1.pCreateDirectoryW ≠ none ∧
          (__PHYSFS_platformInit ld os initialGlobals).1.pRemoveDirectoryW ≠ none ∧
          (__PHYSFS_platformInit ld os initialGlobals).1.pDeleteFileW ≠ none) ∧
      (__PHYSFS_platformInit sampleLoader sampleOs initialGlobals).2.result = .returned 1 ∧
      (__PHYSFS_platformInit emptyLoader sampleOs initialGlobals).2.result = .returned 1 := by
  have hu := platformInit_pGetUserNameW ld os initialGlobals
  have hu0 : (__PHYSFS_platformInit ld os initialGlobals).1.pGetUserNameW = none := by
    rw [hu]; rfl
  have hk := findApiSymbols_kernel32 ld (getOSInfo initialGlobals).1
  have hfields : ∀ g', ((determineUserDir ld os g').1.pFormatMessageW = g'.pFormatMessageW ∧
      (determineUserDir ld os g').1.pCreateDirectoryW = g'.pCreateDirectoryW ∧
      (determineUserDir ld os g').1.pRemoveDirectoryW = g'.pRemoveDirectoryW ∧
      (determineUserDir ld os g').1.pDeleteFileW = g'.pDeleteFileW) := by
    intro g'
    rcases determineUserDir_globals ld os g' with h | ⟨dir, h⟩ <;> rw [h] <;>
      exact ⟨rfl, rfl, rfl, rfl⟩
  obtain ⟨f1, f2, f3, f4⟩ := hfields (findApiSymbols ld (getOSInfo initialGlobals).1).1
  refine ⟨hu0, ?_, ?_, ?_, by decide, by decide⟩
  · unfold __PHYSFS_platformGetUserName
    rw [hu0]
  · intro h0
    obtain ⟨k1, k2, k3, k4⟩ := hk.2 h0
    rw [platformInit_globals, f1, f2, f3, f4, k1, k2, k3, k4]
    exact ⟨rfl, rfl, rfl, rfl⟩
  · intro h1
    obtain ⟨k1, k2, k3, k4⟩ := hk.1 h1
    rw [platformInit_globals, f1, f2, f3, f4]
    exact ⟨k1, k2, k3, k4⟩

theorem strlenFrom_append (a t : List Nat) (h : 0 ∉ a) :
    strlenFrom (a ++ 0 :: t) = some a.length := by
  induction a with
  | nil => simp [strlenFrom]
  | cons x xs ih =>
    simp only [List.mem_cons, not_or] at h
    have hx : x ≠ 0 := fun e => h.1 e.symm
    simp [strlenFrom, hx, ih h.2]

theorem strlenFrom_some (b : List Nat) :
    ∀ n, strlenFrom b = some n → ∃ u t, b = u ++ 0 :: t ∧ 0 ∉ u ∧ u.length = n := by
  induction b with
  | nil => intro n h; simp [strlenFrom] at h
  | cons x xs ih =>
    intro n h
    unfold strlenFrom at h
    split_ifs at h with hx
    · cases h
      exact ⟨[], xs, by simp [hx], by simp, rfl⟩
    · simp only [Option.map_eq_some'] at h
      obtain ⟨m, hm, rfl⟩ := h
      obtain ⟨u, t, hb, hu, hl⟩ := ih m hm
      refine ⟨x :: u, t, by simp [hb], ?_, by simp [hl]⟩
      simp only [List.mem_cons, not_or]
      exact ⟨fun e => hx e.symm, hu⟩

theorem strlenFrom_none (b : List Nat) (h : 0 ∉ b) : strlenFrom b = none := by
  induction b with
  | nil => rfl
  | cons x xs ih =>
    simp only [List.mem_cons, not_or] at h
    have hx : x ≠ 0 := fun e => h.1 e.symm
    simp [strlenFrom, hx, ih h.2]

theorem split_at_nul (b : List Nat) (h : 0 ∈ b) : ∃ s t, b = s ++ 0 :: t ∧ 0 ∉ s := by
  induction b with
  | nil => simp at h
  | cons x xs ih =>
    by_cases hx : x = 0
    · exact ⟨[], xs, by simp [hx], by simp⟩
    · have hxs : 0 ∈ xs := by
        rcases List.mem_cons.mp h with h1 | h1
        · exact absurd h1.symm hx
        · exact h1
      obtain ⟨s, t, hb, hs⟩ := ih hxs
      refine ⟨x :: s, t, by simp [hb], ?_⟩
      simp only [List.mem_cons, not_or]
      exact ⟨fun e => hx e.symm, hs⟩

theorem getD_append_nul (s t : List Nat) (i : Nat) (hi : i ≤ s.length) :
    (s ++ 0 :: t).getD i 0 = s.getD i 0 := by
  rcases Nat.lt_or_eq_of_le hi with h | h
  · simp [List.getD_eq_getElem?_getD, List.getElem?_append_left h]
  · subst h
    simp only [List.getD_eq_getElem?_getD, List.getElem?_append_right (le_refl _),
      Nat.sub_self, List.getElem?_cons_zero, Option.getD_some,
      List.getElem?_eq_none (le_refl _), Option.getD_none]

theorem peek_append_nul (s t : List Nat) (i : Nat) (hi : i ≤ s.length) :
    peek (s ++ 0 :: t) i = some (s.getD i 0) := by
  unfold peek
  rcases Nat.lt_or_eq_of_le hi with h | h
  · simp [List.getD_eq_getElem?_getD, List.getElem?_append_left h, List.getElem?_eq_getElem h]
  · subst h
    simp only [List.get?_eq_getElem?, List.getD_eq_getElem?_getD,
      List.getElem?_append_right (le_refl _), Nat.sub_self, List.getElem?_cons_zero,
      List.getElem?_eq_none (le_refl _), Option.getD_none]

theorem getD_eq_zero_of_le (s : List Nat) (i : Nat) (hi : s.length ≤ i) : s.getD i 0 = 0 := by
  simp [List.getD_eq_getElem?_getD, List.getElem?_eq_none hi]

theorem getD_ne_zero_of_lt (s : List Nat) (h0 : 0 ∉ s) (i : Nat) (hi : i < s.length) :
    s.getD i 0 ≠ 0 := by
  intro h
  apply h0
  have : s.getD i 0 = s[i] := by
    simp [List.getD_eq_getElem?_getD, List.getElem?_eq_getElem hi]
  rw [this] at h
  rw [← h]
  exact List.getElem_mem _

theorem lt_length_of_getD_ne_zero (s : List Nat) (i : Nat) (h : s.getD i 0 ≠ 0) :
    i < s.length := by
  by_contra hc
  exact h (getD_eq_zero_of_le s i (Nat.le_of_not_lt hc))

theorem strlenAt_append_nul (s t : List Nat) (p : Nat) (h0 : 0 ∉ s) (hp : p ≤ s.length) :
    strlenAt (s ++ 0 :: t) p = some (s.length - p) := by
  unfold strlenAt
  rw [List.drop_append_of_le_length hp]
  have : 0 ∉ s.drop p := fun h => h0 (List.mem_of_mem_drop h)
  rw [strlenFrom_append _ _ this, List.length_drop]

theorem getD_drop (s : List Nat) (p i : Nat) : (s.drop p).getD i 0 = s.getD (p + i) 0 := by
  simp [List.getD_eq_getElem?_getD, List.getElem?_drop]

theorem getD_take_append (s a : List Nat) (k i : Nat) (hk : k ≤ s.length) (hi : i < k) :
    (s.take k ++ a).getD i 0 = s.getD i 0 := by
  have h1 : i < (s.take k).length := by
    rw [List.length_take]
    omega
  simp only [List.getD_eq_getElem?_getD, List.getElem?_append_left h1,
    List.getElem?_take_of_lt hi]

theorem findBackslashDot_none (a : List Nat) (h : findBackslashDot a = none) :
    ∀ j, ¬ occursAt a j := by
  induction a with
  | nil =>
    intro j hj
    unfold occursAt at hj
    simp at hj
  | cons c cs ih =>
    unfold findBackslashDot at h
    split_ifs at h with hc
    simp only [Option.map_eq_none'] at h
    intro j hj
    cases j with
    | zero =>
      apply hc
      unfold occursAt at hj
      refine ⟨by simpa [BACKSLASH] using hj.1, ?_⟩
      cases cs with
      | nil => simp at hj
      | cons d ds => simpa [DOT] using hj.2
    | succ j =>
      apply ih h j
      unfold occursAt at hj ⊢
      simpa using hj

theorem findBackslashDot_some (a : List Nat) :
    ∀ i, findBackslashDot a = some i → occursAt a i ∧ ∀ j < i, ¬ occursAt a j := by
  induction a with
  | nil => intro i h; simp [findBackslashDot] at h
  | cons c cs ih =>
    intro i h
    unfold findBackslashDot at h
    split_ifs at h with hc
    · cases h
      refine ⟨?_, fun j hj => absurd hj (Nat.not_lt_zero j)⟩
      unfold occursAt
      obtain ⟨h1, h2⟩ := hc
      cases cs with
      | nil => simp at h2
      | cons d ds =>
        simp only [List.head?_cons, Option.some.injEq] at h2
        simp [h1, h2, BACKSLASH, DOT]
    · simp only [Option.map_eq_some'] at h
      obtain ⟨m, hm, rfl⟩ := h
      obtain ⟨ho, hb⟩ := ih m hm
      constructor
      · unfold occursAt at ho ⊢
        simpa using ho
      · intro j hj
        cases j with
        | zero =>
          intro hj0
          apply hc
          unfold occursAt at hj0
          refine ⟨by simpa [BACKSLASH] using hj0.1, ?_⟩
          cases cs with
          | nil => simp at hj0
          | cons d ds => simpa [DOT] using hj0.2
        | succ j =>
          intro hj1
          apply hb j (by omega)
          unfold occursAt at hj1 ⊢
          simpa using hj1

theorem strstrAt_append_nul (s t : List Nat) (p : Nat) (h0 : 0 ∉ s) (hp : p ≤ s.length) :
    strstrAt (s ++ 0 :: t) p =
      some ((findBackslashDot (s.drop p)).map (fun i => p + i)) := by
  unfold strstrAt
  rw [strlenAt_append_nul s t p h0 hp]
  dsimp only
  rw [List.drop_append_of_le_length hp]
  have : (s.drop p ++ 0 :: t).take (s.length - p) = s.drop p := by
    have hl : (s.drop p).length = s.length - p := List.length_drop p s
    rw [← hl, List.take_left]
  rw [this]

theorem prevEntryScan_spec (buf : List Nat) : ∀ i,
    prevEntryScan buf i ≤ i ∧
      (prevEntryScan buf i = 0 ∨ buf.getD (prevEntryScan buf i) 0 = 92) := by
  intro i
  induction i with
  | zero => exact ⟨le_refl 0, Or.inl rfl⟩
  | succ i ih =>
    unfold prevEntryScan
    split_ifs with h
    · exact ⟨le_refl _, Or.inr (by simpa [BACKSLASH] using h)⟩
    · exact ⟨Nat.le_succ_of_le ih.1, ih.2⟩

theorem writeAt_string (s t a r : List Nat) (k : Nat) (hk : k ≤ s.length)
    (h : writeAt (s ++ 0 :: t) k (a ++ [0]) = some r) :
    ∃ t', r = (s.take k ++ a) ++ 0 :: t' := by
  unfold writeAt at h
  split_ifs at h
  cases h
  refine ⟨List.drop (k + (a ++ [0]).length) (s ++ 0 :: t), ?_⟩
  rw [List.take_append_of_le_length hk]
  simp only [List.append_assoc, List.singleton_append]

theorem poke_string (s t r : List Nat) (k : Nat) (hk : k < s.length)
    (h : poke (s ++ 0 :: t) k 0 = some r) :
    ∃ t', r = (s.take k ++ []) ++ 0 :: t' := by
  unfold poke at h
  split_ifs at h with hl
  cases h
  refine ⟨List.drop (k + 1) (s ++ 0 :: t), ?_⟩
  rw [List.set_eq_take_append_cons_drop, if_pos hl,
    List.take_append_of_le_length (Nat.le_of_lt hk), List.append_nil]

theorem drop_take_string (s t : List Nat) (j : Nat) (hj : j ≤ s.length) :
    ((s ++ 0 :: t).drop j).take (s.length - j + 1) = s.drop j ++ [0] := by
  rw [List.drop_append_of_le_length hj]
  have hl : (s.drop j ++ [0]).length = s.length - j + 1 := by
    simp [List.length_drop]
  have : s.drop j ++ 0 :: t = (s.drop j ++ [0]) ++ t := by simp
  rw [this, ← hl, List.take_left]

theorem memmove_string (s t r : List Nat) (k j : Nat) (h0 : 0 ∉ s) (hk : k ≤ s.length)
    (hj : j ≤ s.length)
    (h : memmoveAt (s ++ 0 :: t) k j (s.length - j + 1) = some r) :
    ∃ a t', 0 ∉ a ∧ r = (s.take k ++ a) ++ 0 :: t' := by
  unfold memmoveAt at h
  split_ifs at h
  rw [drop_take_string s t j hj] at h
  obtain ⟨t', ht'⟩ := writeAt_string s t (s.drop j) r k hk h
  exact ⟨s.drop j, t', fun hm => h0 (List.mem_of_mem_drop hm), ht'⟩

theorem realPathStep_none (s t : List Nat) (p : Nat) (h0 : 0 ∉ s) (hp : p ≤ s.length)
    (hf : findBackslashDot (s.drop p) = none) :
    realPathStep (s ++ 0 :: t) p = some (s ++ 0 :: t, none) := by
  unfold realPathStep
  rw [strstrAt_append_nul s t p h0 hp, hf]
  rfl

theorem realPathStep_some (s t : List Nat) (p i : Nat) (h0 : 0 ∉ s) (hp : p ≤ s.length)
    (hf : findBackslashDot (s.drop p) = some i) :
    (¬ liveEntryAt s (p + i) →
        realPathStep (s ++ 0 :: t) p = some (s ++ 0 :: t, some (p + i + 1))) ∧
      (liveEntryAt s (p + i) →
        realPathStep (s ++ 0 :: t) p = none ∨
          ∃ buf m, realPathStep (s ++ 0 :: t) p = some (buf, some m) ∧
            StepTo s (p + i) buf m) := by
  obtain ⟨hocc, _⟩ := findBackslashDot_some (s.drop p) i hf
  have hq : occursAt s (p + i) := by
    unfold occursAt at hocc ⊢
    rw [getD_drop, getD_drop] at hocc
    exact hocc
  have hstr : strstrAt (s ++ 0 :: t) p = some (some (p + i)) := by
    rw [strstrAt_append_nul s t p h0 hp, hf]
    rfl
  generalize p + i = q at hq hstr ⊢
  have hq1 : q + 1 < s.length :=
    lt_length_of_getD_ne_zero s (q + 1) (by rw [hq.2]; decide)
  have hstep : realPathStep (s ++ 0 :: t) p =
      (match peek (s ++ 0 :: t) (q + 2) with
      | none => none
      | some p2 =>
        if p2 = BACKSLASH then
          match strlenAt (s ++ 0 :: t) (q + 3) with
          | none => none
          | some n => (memmoveAt (s ++ 0 :: t) (q + 1) (q + 3) (n + 1)).map (fun b => (b, some q))
        else if p2 = 0 then
          (poke (s ++ 0 :: t) q 0).map (fun b => (b, some q))
        else if p2 = DOT then
          if q = 0 then none
          else
            let prevEntry := prevEntryScan (s ++ 0 :: t) (q - 1)
            if prevEntry = 0 then
              match strlenAt (s ++ 0 :: t) (q + 2) with
              | none => none
              | some n =>
                (memmoveAt (s ++ 0 :: t) (q + 1) (q + 2) (n + 1)).map (fun b => (b, some q))
            else
              match peek (s ++ 0 :: t) (q + 3) with
              | none => none
              | some p3 =>
                if p3 ≠ 0 then
                  (poke (s ++ 0 :: t) prevEntry 0).map (fun b => (b, some prevEntry))
                else
                  match strlenAt (s ++ 0 :: t) (q + 4) with
                  | none => none
                  | some n =>
                    (memmoveAt (s ++ 0 :: t) (prevEntry + 1) (q + 4) (n + 1)).map
                      (fun b => (b, some prevEntry))
        else
          some (s ++ 0 :: t, some (q + 1))) := by
    unfold realPathStep
    rw [hstr]
  rw [hstep, peek_append_nul s t (q + 2) (by omega)]
  dsimp only
  have hsq : s.getD q 0 = 92 := hq.1
  constructor
  · intro hlive
    have h1 : ¬ s.getD (q + 2) 0 = BACKSLASH := fun h => hlive ⟨hq, Or.inl h⟩
    have h2 : ¬ s.getD (q + 2) 0 = 0 := fun h => hlive ⟨hq, Or.inr (Or.inr h)⟩
    have h3 : ¬ s.getD (q + 2) 0 = DOT := fun h => hlive ⟨hq, Or.inr (Or.inl h)⟩
    rw [if_neg h1, if_neg h2, if_neg h3]
  · intro hlive
    by_cases h1 : s.getD (q + 2) 0 = BACKSLASH
    · rw [if_pos h1]
      have hq2 : q + 2 < s.length :=
        lt_length_of_getD_ne_zero s (q + 2) (by rw [h1]; decide)
      rw [strlenAt_append_nul s t (q + 3) h0 (by omega)]
      dsimp only
      cases hm : memmoveAt (s ++ 0 :: t) (q + 1) (q + 3) (s.length - (q + 3) + 1) with
      | none => exact Or.inl rfl
      | some r =>
        obtain ⟨a, t', ha, hr⟩ := memmove_string s t r (q + 1) (q + 3) h0 (by omega) (by omega) hm
        exact Or.inr ⟨r, q, rfl, q + 1, a, t', le_refl q, by omega, ha, hsq, Or.inl rfl, hr⟩
    · rw [if_neg h1]
      by_cases h2 : s.getD (q + 2) 0 = 0
      · rw [if_pos h2]
        cases hm : poke (s ++ 0 :: t) q 0 with
        | none => exact Or.inl rfl
        | some r =>
          obtain ⟨t', hr⟩ := poke_string s t r q (by omega) hm
          exact Or.inr ⟨r, q, rfl, q, [], t', le_refl q, by omega, by simp, hsq, Or.inr ⟨rfl, rfl⟩, hr⟩
      · rw [if_neg h2]
        have h3 : s.getD (q + 2) 0 = DOT := by
          rcases hlive.2 with h | h | h
          · exact absurd h h1
          · exact h
          · exact absurd h h2
        rw [if_pos h3]
        have hq2 : q + 2 < s.length := lt_length_of_getD_ne_zero s (q + 2) h2
        by_cases hq0 : q = 0
        · rw [if_pos hq0]
          exact Or.inl rfl
        · rw [if_neg hq0]
          obtain ⟨hle, hbs⟩ := prevEntryScan_spec (s ++ 0 :: t) (q - 1)
          generalize prevEntryScan (s ++ 0 :: t) (q - 1) = e at hle hbs ⊢
          by_cases he : e = 0
          · rw [if_pos he, strlenAt_append_nul s t (q + 2) h0 (by omega)]
            dsimp only
            cases hm : memmoveAt (s ++ 0 :: t) (q + 1) (q + 2) (s.length - (q + 2) + 1) with
            | none => exact Or.inl rfl
            | some r =>
              obtain ⟨a, t', ha, hr⟩ :=
                memmove_string s t r (q + 1) (q + 2) h0 (by omega) (by omega) hm
              exact Or.inr ⟨r, q, rfl, q + 1, a, t', le_refl q, by omega, ha, hsq,
                Or.inl rfl, hr⟩
          · rw [if_neg he, peek_append_nul s t (q + 3) (by omega)]
            dsimp only
            have hse : s.getD e 0 = 92 := by
              rcases hbs with h | h
              · exact absurd h he
              · rw [getD_append_nul s t e (by omega)] at h
                exact h
            by_cases h4 : s.getD (q + 3) 0 ≠ 0
            · rw [if_pos h4]
              cases hm : poke (s ++ 0 :: t) e 0 with
              | none => exact Or.inl rfl
              | some r =>
                obtain ⟨t', hr⟩ := poke_string s t r e (by omega) hm
                exact Or.inr ⟨r, e, rfl, e, [], t', by omega, by omega, by simp, hse,
                  Or.inr ⟨rfl, rfl⟩, hr⟩
            · rw [if_neg h4]
              have h4' : s.getD (q + 3) 0 = 0 := not_not.mp h4
              have hlen : s.length = q + 3 := by
                by_contra hne
                exact getD_ne_zero_of_lt s h0 (q + 3) (by omega) h4'
              have hdrop : (s ++ 0 :: t).drop (q + 4) = t := by
                have : q + 4 = (s ++ [0]).length := by simp [hlen]
                have e2 : s ++ 0 :: t = (s ++ [0]) ++ t := by simp
                rw [e2, this, List.drop_left]
              cases hsl : strlenAt (s ++ 0 :: t) (q + 4) with
              | none => exact Or.inl rfl
              | some n =>
                dsimp only
                unfold strlenAt at hsl
                rw [hdrop] at hsl
                obtain ⟨u, t2, ht, hu, hul⟩ := strlenFrom_some t n hsl
                cases hm : memmoveAt (s ++ 0 :: t) (e + 1) (q + 4) (n + 1) with
                | none => exact Or.inl rfl
                | some r =>
                  unfold memmoveAt at hm
                  split_ifs at hm
                  rw [hdrop] at hm
                  have htake : t.take (n + 1) = u ++ [0] := by
                    have e3 : t = (u ++ [0]) ++ t2 := by simp [ht]
                    have e4 : n + 1 = (u ++ [0]).length := by simp [hul]
                    rw [e3, e4, List.take_left]
                  rw [htake] at hm
                  obtain ⟨t', hr⟩ := writeAt_string s t u r (e + 1) (by omega) hm
                  exact Or.inr ⟨r, e, rfl, e + 1, u, t', by omega, by omega, hu, hse,
                    Or.inl rfl, hr⟩

theorem liveEntryAt_of_prefix (s s' : List Nat) (m : Nat)
    (hagree : ∀ i < m, s'.getD i 0 = s.getD i 0) (hm : s.getD m 0 = 92)
    (hm' : s'.getD m 0 ≠ 46) :
    ∀ j < m, liveEntryAt s' j → liveEntryAt s j := by
  intro j hj hlive
  obtain ⟨⟨h1, h2⟩, h3⟩ := hlive
  have hj1 : j + 1 < m := by
    rcases Nat.lt_or_ge (j + 1) m with h | h
    · exact h
    · have : j + 1 = m := by omega
      rw [this] at h2
      exact absurd h2 hm'
  refine ⟨⟨by rw [← hagree j hj]; exact h1, by rw [← hagree (j + 1) hj1]; exact h2⟩, ?_⟩
  rcases Nat.lt_or_ge (j + 2) m with h | h
  · rw [← hagree (j + 2) h]
    exact h3
  · have : j + 2 = m := by omega
    rw [this]
    exact Or.inl hm

theorem stepTo_invariant (s : List Nat) (p i : Nat) (buf : List Nat) (m : Nat)
    (h0 : 0 ∉ s) (hclean : ∀ j < p, ¬ liveEntryAt s j)
    (hfirst : ∀ j < i, ¬ occursAt (s.drop p) j) (hstep : StepTo s (p + i) buf m) :
    ∃ s' t', buf = s' ++ 0 :: t' ∧ 0 ∉ s' ∧ m ≤ s'.length ∧ ∀ j < m, ¬ liveEntryAt s' j := by
  obtain ⟨k, a, t', hmq, hk, ha, hsm, hka, hbuf⟩ := hstep
  have hkm : m ≤ k := by
    rcases hka with h | ⟨h, _⟩ <;> omega
  have hlen : (s.take k).length = k := by
    rw [List.length_take]
    omega
  refine ⟨s.take k ++ a, t', hbuf, ?_, ?_, ?_⟩
  · intro hmem
    rcases List.mem_append.mp hmem with h | h
    · exact h0 (List.mem_of_mem_take h)
    · exact ha h
  · rw [List.length_append, hlen]
    omega
  · intro j hj hlive
    have hagree : ∀ i' < m, (s.take k ++ a).getD i' 0 = s.getD i' 0 :=
      fun i' hi' => getD_take_append s a k i' hk (by omega)
    have hm' : (s.take k ++ a).getD m 0 ≠ 46 := by
      rcases hka with h | ⟨h, ha0⟩
      · rw [getD_take_append s a k m hk (by omega), hsm]
        decide
      · subst ha0
        rw [List.append_nil, getD_eq_zero_of_le _ _ (by rw [hlen]; omega)]
        decide
    have hl := liveEntryAt_of_prefix s (s.take k ++ a) m hagree hsm hm' j hj hlive
    rcases Nat.lt_or_ge j p with h | h
    · exact hclean j h hl
    · apply hfirst (j - p) (by omega)
      have hocc := hl.1
      unfold occursAt at hocc ⊢
      rw [getD_drop, getD_drop]
      have e1 : p + (j - p) = j := by omega
      have e2 : p + (j - p + 1) = j + 1 := by omega
      rw [e1, e2]
      exact hocc

theorem realPathLoop_clean (fuel : Nat) : ∀ (s t : List Nat) (p : Nat) (r : List Nat),
    0 ∉ s → p ≤ s.length → (∀ j < p, ¬ liveEntryAt s j) →
    realPathLoop fuel (s ++ 0 :: t) p = .returned r →
    ∃ s' t', r = s' ++ 0 :: t' ∧ 0 ∉ s' ∧ ∀ j, ¬ liveEntryAt s' j := by
  induction fuel with
  | zero =>
    intro s t p r _ _ _ h
    simp [realPathLoop] at h
  | succ fuel ih =>
    intro s t p r h0 hp hclean h
    unfold realPathLoop at h
    cases hf : findBackslashDot (s.drop p) with
    | none =>
      rw [realPathStep_none s t p h0 hp hf] at h
      simp only [Outcome.returned.injEq] at h
      subst h
      refine ⟨s, t, rfl, h0, ?_⟩
      intro j hlive
      rcases Nat.lt_or_ge j p with hj | hj
      · exact hclean j hj hlive
      · apply findBackslashDot_none (s.drop p) hf (j - p)
        have hocc := hlive.1
        unfold occursAt at hocc ⊢
        rw [getD_drop, getD_drop]
        have e1 : p + (j - p) = j := by omega
        have e2 : p + (j - p + 1) = j + 1 := by omega
        rw [e1, e2]
        exact hocc
    | some i =>
      obtain ⟨hocc, hfirst⟩ := findBackslashDot_some (s.drop p) i hf
      obtain ⟨hnl, hl⟩ := realPathStep_some s t p i h0 hp hf
      have hq : occursAt s (p + i) := by
        unfold occursAt at hocc ⊢
        rw [getD_drop, getD_drop] at hocc
        exact hocc
      by_cases hlive : liveEntryAt s (p + i)
      · rcases hl hlive with hs | ⟨buf, m, hs, hto⟩
        · rw [hs] at h
          simp at h
        · rw [hs] at h
          obtain ⟨s', t', hb, h0', hm, hc'⟩ := stepTo_invariant s p i buf m h0 hclean hfirst hto
          simp only at h
          rw [hb] at h
          exact ih s' t' m r h0' hm hc' h
      · rw [hnl hlive] at h
        simp only at h
        have hq1 : p + i + 1 < s.length :=
          lt_length_of_getD_ne_zero s (p + i + 1) (by rw [hq.2]; decide)
        apply ih s t (p + i + 1) r h0 (by omega) _ h
        intro j hj
        rcases Nat.lt_or_ge j p with h1 | h1
        · exact hclean j h1
        · rcases Nat.lt_or_ge j (p + i) with h2 | h2
          · intro hlv
            apply hfirst (j - p) (by omega)
            have ho := hlv.1
            unfold occursAt at ho ⊢
            rw [getD_drop, getD_drop]
            have e1 : p + (j - p) = j := by omega
            have e2 : p + (j - p + 1) = j + 1 := by omega
            rw [e1, e2]
            exact ho
          · have : j = p + i := by omega
            rw [this]
            exact hlive

theorem realPathLoop_no_nul (fuel : Nat) (buf : List Nat) (p : Nat) (r : List Nat)
    (h0 : 0 ∉ buf) : realPathLoop fuel buf p ≠ .returned r := by
  cases fuel with
  | zero => simp [realPathLoop]
  | succ fuel =>
    have hs : realPathStep buf p = none := by
      unfold realPathStep strstrAt strlenAt
      rw [strlenFrom_none _ (fun h => h0 (List.mem_of_mem_drop h))]
    unfold realPathLoop
    rw [hs]
    simp

theorem realPathFinish_clean (fuel : Nat) (trace : List Event) (filled : Option (List Nat))
    (r : List Nat) (h : (realPathFinish fuel trace filled).result = .returned (some r)) :
    0 ∉ r ∧ ∀ j, ¬ liveEntryAt r j := by
  unfold realPathFinish at h
  cases filled with
  | none => simp at h
  | some buf =>
    dsimp only at h
    cases hloop : realPathLoop fuel buf 0 with
    | returned b =>
      rw [hloop] at h
      dsimp only at h
      by_cases hnul : 0 ∈ buf
      · obtain ⟨s, t, hb, hs⟩ := split_at_nul buf hnul
        rw [hb] at hloop
        obtain ⟨s', t', hb', hs', hc⟩ :=
          realPathLoop_clean fuel s t 0 b hs (Nat.zero_le _) (fun j hj => absurd hj (Nat.not_lt_zero j))
            hloop
        rw [hb', strlenAt_append_nul s' t' 0 hs' (Nat.zero_le _)] at h
        simp only [Nat.sub_zero, Outcome.returned.injEq, Option.some.injEq] at h
        rw [List.take_left] at h
        subst h
        exact ⟨hs', hc⟩
      · exact absurd hloop (realPathLoop_no_nul fuel buf 0 b hnul)
    | aborted => rw [hloop] at h; simp at h
    | undefined => rw [hloop] at h; simp at h
    | outOfFuel => rw [hloop] at h; simp at h

/-- Every string that `__PHYSFS_platformRealPath` returns came out of
`realPathFinish`, on a block that `allocator.Malloc` gave. -/
theorem platformRealPath_returned (fuel : Nat) (os : Win32) (path : Option (List Nat))
    (r : List Nat) (h : (__PHYSFS_platformRealPath fuel os path).result = .returned (some r)) :
    ∃ trace filled, (realPathFinish fuel trace filled).result = .returned (some r) := by
  unfold __PHYSFS_platformRealPath at h
  cases path with
  | none => simp at h
  | some path =>
    dsimp only at h
    by_cases h1 : path.getD 0 0 = 0
    · rw [if_pos h1] at h
      simp at h
    · rw [if_neg h1] at h
      cases hm : os.Malloc MAX_PATH with
      | none => rw [hm] at h; simp at h
      | some g =>
        rw [hm] at h
        dsimp only at h
        by_cases h2 : path.getD 0 0 = BACKSLASH ∧ path.getD 1 0 = BACKSLASH
        · rw [if_pos h2] at h
          exact ⟨_, _, h⟩
        · rw [if_neg h2] at h
          cases hcd : (__PHYSFS_platformCurrentDir os).result with
          | returned v =>
            rw [hcd] at h
            cases v with
            | none => simp at h
            | some currentDir =>
              dsimp only at h
              exact ⟨_, _, h⟩
          | aborted => rw [hcd] at h; simp at h
          | undefined => rw [hcd] at h; simp at h
          | outOfFuel => rw [hcd] at h; simp at h

theorem writeAt_length (buf : List Nat) (off : Nat) (bytes r : List Nat)
    (h : writeAt buf off bytes = some r) : r.length = buf.length := by
  unfold writeAt at h
  split_ifs at h with hle
  cases h
  simp only [List.length_append, List.length_take, List.length_drop]
  omega

theorem poke_length (buf : List Nat) (i v : Nat) (r : List Nat) (h : poke buf i v = some r) :
    r.length = buf.length := by
  unfold poke at h
  split_ifs at h
  cases h
  exact List.length_set _ _ _

theorem strcpyAt_length (buf : List Nat) (off : Nat) (src r : List Nat)
    (h : strcpyAt buf off src = some r) : r.length = buf.length :=
  writeAt_length buf off _ r h

theorem strcatAt_length (buf src r : List Nat) (h : strcatAt buf src = some r) :
    r.length = buf.length := by
  unfold strcatAt at h
  split at h
  · cases h
  · exact strcpyAt_length buf _ src r h

theorem memmoveAt_length (buf : List Nat) (dst src n : Nat) (r : List Nat)
    (h : memmoveAt buf dst src n = some r) : r.length = buf.length := by
  unfold memmoveAt at h
  split_ifs at h
  exact writeAt_length buf dst _ r h

theorem map_pair_length (o : Option (List Nat)) (x : Option Nat) (L : Nat)
    (ho : ∀ r, o = some r → r.length = L) (b : List Nat) (y : Option Nat)
    (h : o.map (fun b => (b, x)) = some (b, y)) : b.length = L := by
  cases o with
  | none => simp at h
  | some r =>
    simp only [Option.map_some', Option.some.injEq, Prod.mk.injEq] at h
    rw [← h.1]
    exact ho r rfl

theorem realPathStep_length (buf : List Nat) (p : Nat) (b : List Nat) (x : Option Nat)
    (h : realPathStep buf p = some (b, x)) : b.length = buf.length := by
  have hmm : ∀ (d s n : Nat) (y : Option Nat),
      (memmoveAt buf d s n).map (fun b => (b, y)) = some (b, x) → b.length = buf.length :=
    fun d s n y h' =>
      map_pair_length _ _ _ (fun r hr => memmoveAt_length _ _ _ _ r hr) b x h'
  have hpk : ∀ (i : Nat) (y : Option Nat),
      (poke buf i 0).map (fun b => (b, y)) = some (b, x) → b.length = buf.length :=
    fun i y h' => map_pair_length _ _ _ (fun r hr => poke_length _ _ _ r hr) b x h'
  unfold realPathStep at h
  split at h
  · cases h
  · cases h; rfl
  · rename_i q _
    split at h
    · cases h
    · rename_i p2 _
      by_cases c1 : p2 = BACKSLASH
      · rw [if_pos c1] at h
        split at h
        · cases h
        · exact hmm _ _ _ _ h
      · rw [if_neg c1] at h
        by_cases c2 : p2 = 0
        · rw [if_pos c2] at h
          exact hpk _ _ h
        · rw [if_neg c2] at h
          by_cases c3 : p2 = DOT
          · rw [if_pos c3] at h
            by_cases c4 : q = 0
            · rw [if_pos c4] at h
              cases h
            · rw [if_neg c4] at h
              dsimp only at h
              by_cases c5 : prevEntryScan buf (q - 1) = 0
              · rw [if_pos c5] at h
                split at h
                · cases h
                · exact hmm _ _ _ _ h
              · rw [if_neg c5] at h
                split at h
                · cases h
                · rename_i p3 _
                  by_cases c6 : p3 ≠ 0
                  · rw [if_pos c6] at h
                    exact hpk _ _ h
                  · rw [if_neg c6] at h
                    split at h
                    · cases h
                    · exact hmm _ _ _ _ h
          · rw [if_neg c3] at h
            cases h
            rfl

theorem realPathLoop_length (fuel : Nat) : ∀ (buf : List Nat) (p : Nat) (r : List Nat),
    realPathLoop fuel buf p = .returned r → r.length = buf.length := by
  induction fuel with
  | zero => intro buf p r h; simp [realPathLoop] at h
  | succ fuel ih =>
    intro buf p r h
    unfold realPathLoop at h
    cases hs : realPathStep buf p with
    | none => rw [hs] at h; simp at h
    | some pr =>
      obtain ⟨b, x⟩ := pr
      rw [hs] at h
      have hl := realPathStep_length buf p b x hs
      cases x with
      | none =>
        simp only [Outcome.returned.injEq] at h
        rw [← h]
        exact hl
      | some q =>
        simp only at h
        rw [ih b q r h]
        exact hl

theorem bind_length (o : Option (List Nat)) (f : List Nat → Option (List Nat)) (L : Nat)
    (ho : ∀ r, o = some r → r.length = L)
    (hf : ∀ r b, r.length = L → f r = some b → b.length = L) (b : List Nat)
    (h : o.bind f = some b) : b.length = L := by
  cases o with
  | none => simp at h
  | some r => exact hf r b (ho r rfl) h

theorem realPathFinish_length (fuel : Nat) (trace : List Event) (buf r : List Nat)
    (h : (realPathFinish fuel trace (some buf)).result = .returned (some r)) :
    r.length < buf.length := by
  unfold realPathFinish at h
  dsimp only at h
  cases hloop : realPathLoop fuel buf 0 with
  | returned b =>
    rw [hloop] at h
    dsimp only at h
    have hl := realPathLoop_length fuel buf 0 b hloop
    cases hs : strlenAt b 0 with
    | none => rw [hs] at h; simp at h
    | some n =>
      rw [hs] at h
      simp only [Outcome.returned.injEq, Option.some.injEq] at h
      unfold strlenAt at hs
      rw [List.drop_zero] at hs
      obtain ⟨u, t, hb, _, hul⟩ := strlenFrom_some b n hs
      rw [← h, ← hl, hb, List.length_take, List.length_append, List.length_cons]
      omega
  | aborted => rw [hloop] at h; simp at h
  | undefined => rw [hloop] at h; simp at h
  | outOfFuel => rw [hloop] at h; simp at h

/-- Every string that `__PHYSFS_platformRealPath` returns is shorter than
`MAX_PATH`, and `allocator.Malloc` gave the block it was built in. -/
theorem platformRealPath_returned_block (fuel : Nat) (os : Win32) (path : Option (List Nat))
    (r : List Nat) (h : (__PHYSFS_platformRealPath fuel os path).result = .returned (some r)) :
    (∃ g, os.Malloc MAX_PATH = some g) ∧ r.length < MAX_PATH := by
  have hcpy : ∀ (g : List Nat) (off : Nat) (src buf b : List Nat), buf.length = MAX_PATH →
      strcpyAt buf off src = some b → b.length = MAX_PATH :=
    fun g off src buf b hb hc => by rw [strcpyAt_length buf off src b hc, hb]
  have hcat : ∀ (src buf b : List Nat), buf.length = MAX_PATH →
      strcatAt buf src = some b → b.length = MAX_PATH :=
    fun src buf b hb hc => by rw [strcatAt_length buf src b hc, hb]
  have hpoke : ∀ (i v : Nat) (buf b : List Nat), buf.length = MAX_PATH →
      poke buf i v = some b → b.length = MAX_PATH :=
    fun i v buf b hb hc => by rw [poke_length buf i v b hc, hb]
  have hfin : ∀ (trace : List Event) (filled : Option (List Nat)),
      (∀ b, filled = some b → b.length = MAX_PATH) →
      (realPathFinish fuel trace filled).result = .returned (some r) → r.length < MAX_PATH := by
    intro trace filled hlen hres
    cases filled with
    | none => simp [realPathFinish] at hres
    | some buf =>
      have := realPathFinish_length fuel trace buf r hres
      rw [hlen buf rfl] at this
      exact this
  unfold __PHYSFS_platformRealPath at h
  cases path with
  | none => simp at h
  | some path =>
    dsimp only at h
    by_cases h1 : path.getD 0 0 = 0
    · rw [if_pos h1] at h
      simp at h
    · rw [if_neg h1] at h
      cases hm : os.Malloc MAX_PATH with
      | none => rw [hm] at h; simp at h
      | some g =>
        refine ⟨⟨g, rfl⟩, ?_⟩
        rw [hm] at h
        dsimp only at h
        have hfresh := freshBlock_length MAX_PATH g
        by_cases h2 : path.getD 0 0 = BACKSLASH ∧ path.getD 1 0 = BACKSLASH
        · rw [if_pos h2] at h
          exact hfin _ _ (fun b hb => hcpy g 0 path _ b hfresh hb) h
        · rw [if_neg h2] at h
          cases hcd : (__PHYSFS_platformCurrentDir os).result with
          | returned v =>
            rw [hcd] at h
            cases v with
            | none => simp at h
            | some currentDir =>
              dsimp only at h
              refine hfin _ _ ?_ h
              intro b hb
              split_ifs at hb
              · exact hcpy g 0 path _ b hfresh hb
              · exact bind_length _ _ MAX_PATH (fun r' hr' => hcpy g 0 _ _ r' hfresh hr')
                  (fun r' b' hr' hb' => hcat _ r' b' hr' hb') b hb
              · refine bind_length _ _ MAX_PATH (fun r' hr' => hpoke _ _ _ r' hfresh hr') ?_ b hb
                intro r1 b1 hr1 hb1
                refine bind_length _ _ MAX_PATH (fun r' hr' => hpoke _ _ _ r' hr1 hr') ?_ b1 hb1
                intro r2 b2 hr2 hb2
                exact bind_length _ _ MAX_PATH (fun r' hr' => hpoke _ _ _ r' hr2 hr')
                  (fun r' b' hr' hb' => hcpy g 3 _ r' b' hr' hb') b2 hb2
              · refine bind_length _ _ MAX_PATH (fun r' hr' => hpoke _ _ _ r' hfresh hr') ?_ b hb
                intro r1 b1 hr1 hb1
                exact bind_length _ _ MAX_PATH (fun r' hr' => hpoke _ _ _ r' hr1 hr')
                  (fun r' b' hr' hb' => hcpy g 2 _ r' b' hr' hb') b1 hb1
              · exact bind_length _ _ MAX_PATH (fun r' hr' => hcpy g 0 _ _ r' hfresh hr')
                  (fun r' b' hr' hb' => hcat _ r' b' hr' hb') b hb
          | aborted => rw [hcd] at h; simp at h
          | undefined => rw [hcd] at h; simp at h
          | outOfFuel => rw [hcd] at h; simp at h

theorem realPathLoop_fixed (fuel : Nat) : ∀ (s t : List Nat) (p : Nat),
    0 ∉ s → p ≤ s.length → (∀ j, ¬ liveEntryAt s j) → s.length - p < fuel →
    realPathLoop fuel (s ++ 0 :: t) p = .returned (s ++ 0 :: t) := by
  induction fuel with
  | zero => intro s t p _ _ _ h; omega
  | succ fuel ih =>
    intro s t p h0 hp hclean hfuel
    unfold realPathLoop
    cases hf : findBackslashDot (s.drop p) with
    | none => rw [realPathStep_none s t p h0 hp hf]
    | some i =>
      obtain ⟨hocc, _⟩ := findBackslashDot_some (s.drop p) i hf
      have hq1 : p + i + 1 < s.length := by
        apply lt_length_of_getD_ne_zero s (p + i + 1)
        have := hocc.2
        rw [getD_drop] at this
        have e : p + (i + 1) = p + i + 1 := by omega
        rw [e] at this
        rw [this]
        decide
      rw [(realPathStep_some s t p i h0 hp hf).1 (hclean (p + i))]
      exact ih s t (p + i + 1) h0 (by omega) hclean (by omega)

theorem strcpyAt_fresh (g r : List Nat) (h0 : 0 ∉ r) (hlen : r.length < MAX_PATH) :
    ∃ t, strcpyAt (freshBlock MAX_PATH g) 0 r = some (r ++ 0 :: t) := by
  unfold strcpyAt writeAt
  rw [cstr_of_not_mem r h0, if_pos]
  · exact ⟨List.drop (r.length + 1) (freshBlock MAX_PATH g), by simp⟩
  · rw [freshBlock_length]
    simp only [List.length_append, List.length_singleton]
    omega

theorem realPathFinish_fixed (fuel : Nat) (trace : List Event) (r t : List Nat) (h0 : 0 ∉ r)
    (hclean : ∀ j, ¬ liveEntryAt r j) (hfuel : r.length < fuel) :
    realPathFinish fuel trace (some (r ++ 0 :: t)) =
      ⟨trace ++ [.Realloc (r.length + 1)], .returned (some r)⟩ := by
  unfold realPathFinish
  dsimp only
  rw [realPathLoop_fixed fuel r t 0 h0 (Nat.zero_le _) hclean (by omega)]
  dsimp only
  rw [strlenAt_append_nul r t 0 h0 (Nat.zero_le _)]
  simp only [Nat.sub_zero, List.take_left]

/-- C12 as claimed fails: on the platform whose folder is `C:\app`, the path
`C:\.` is resolved to `C:`, and `C:` is resolved to `C:\app\`: the second
application does not return the result of the first. -/
theorem platformRealPath_not_idempotent :
    (__PHYSFS_platformRealPath 4 sampleOs (some [67, 58, 92, 46])).result =
        .returned (some [67, 58]) ∧
      (__PHYSFS_platformRealPath 4 sampleOs (some [67, 58])).result =
        .returned (some [67, 58, 92, 97, 112, 112, 92]) := by
  decide

/-- C12, amended: when `__PHYSFS_platformRealPath` returns a string `r` that
is absolute (it begins with two backslashes, or it has `:` and a backslash as
second and third character and the current-directory lookup succeeds), then
applying it to `r`, with loop fuel above the length of `r`, returns `r`. -/
theorem platformRealPath_idempotent_absolute (fuel fuel' : Nat) (os : Win32)
    (p : Option (List Nat)) (r : List Nat)
    (h : (__PHYSFS_platformRealPath fuel os p).result = .returned (some r))
    (habs : (r.getD 0 0 = BACKSLASH ∧ r.getD 1 0 = BACKSLASH) ∨
      (r.getD 1 0 = COLON ∧ r.getD 2 0 = BACKSLASH ∧
        ∃ cd, (__PHYSFS_platformCurrentDir os).result = .returned (some cd)))
    (hfuel : r.length < fuel') :
    (__PHYSFS_platformRealPath fuel' os (some r)).result = .returned (some r) := by
  obtain ⟨trace, filled, hf⟩ := platformRealPath_returned fuel os p r h
  obtain ⟨h0, hc⟩ := realPathFinish_clean fuel trace filled r hf
  obtain ⟨⟨g, hg⟩, hlen⟩ := platformRealPath_returned_block fuel os p r h
  obtain ⟨t, ht⟩ := strcpyAt_fresh g r h0 hlen
  have hne : r.getD 0 0 ≠ 0 := by
    apply getD_ne_zero_of_lt r h0 0
    rcases habs with ⟨ha, _⟩ | ⟨ha, _, _⟩
    · apply lt_length_of_getD_ne_zero r 0
      rw [ha]
      decide
    · have : 1 < r.length := by
        apply lt_length_of_getD_ne_zero r 1
        rw [ha]
        decide
      omega
  unfold __PHYSFS_platformRealPath
  dsimp only
  rw [if_neg hne, hg]
  dsimp only
  rcases habs with hunc | ⟨h1, h2, cd, hcd⟩
  · rw [if_pos hunc, ht, realPathFinish_fixed fuel' _ r t h0 hc hfuel]
  · have hnunc : ¬ (r.getD 0 0 = BACKSLASH ∧ r.getD 1 0 = BACKSLASH) := by
      intro hh
      rw [h1] at hh
      exact absurd hh.2 (by decide)
    rw [if_neg hnunc, hcd]
    dsimp only
    rw [if_pos h1, if_pos h2, ht, realPathFinish_fixed fuel' _ r t h0 hc hfuel]

/-- C12, amended, at the path `a\.\b` relative to the folder `C:\app`: the
result `C:\app\a\b` is returned again when the routine is applied to it. -/
theorem platformRealPath_idempotent_absolute_witness :
    (__PHYSFS_platformRealPath 4 sampleOs (some [97, 92, 46, 92, 98])).result =
        .returned (some [67, 58, 92, 97, 112, 112, 92, 97, 92, 98]) ∧
      (__PHYSFS_platformRealPath 11 sampleOs
          (some [67, 58, 92, 97, 112, 112, 92, 97, 92, 98])).result =
        .returned (some [67, 58, 92, 97, 112, 112, 92, 97, 92, 98]) :=
  ⟨by decide,
   platformRealPath_idempotent_absolute 4 11 sampleOs (some [97, 92, 46, 92, 98]) _
     (by decide) (Or.inr ⟨by decide, by decide, _, rfl⟩) (by decide)⟩

/-- When `realPathStepSource` names a source range, the round of `realPathStep`
is a `memmove` from that range. -/
theorem realPathStep_memmove (retval : List Nat) (p src n : Nat)
    (h : realPathStepSource retval p = some (src, n)) :
    ∃ dst q, realPathStep retval p = (memmoveAt retval dst src n).map (fun b => (b, some q)) := by
  unfold realPathStepSource at h
  unfold realPathStep
  cases hs : strstrAt retval p with
  | none => rw [hs] at h; simp at h
  | some o =>
    cases o with
    | none => rw [hs] at h; simp at h
    | some q =>
      rw [hs] at h
      dsimp only at h ⊢
      cases h2 : peek retval (q + 2) with
      | none => rw [h2] at h; simp at h
      | some p2 =>
        rw [h2] at h
        dsimp only at h ⊢
        by_cases c1 : p2 = BACKSLASH
        · rw [if_pos c1] at h ⊢
          cases hl : strlenAt retval (q + 3) with
          | none => rw [hl] at h; simp at h
          | some m =>
            rw [hl] at h
            simp only [Option.map_some', Option.some.injEq, Prod.mk.injEq] at h
            exact ⟨q + 1, q, by rw [← h.1, ← h.2]⟩
        · rw [if_neg c1] at h ⊢
          by_cases c2 : p2 = 0
          · rw [if_pos c2] at h; simp at h
          · rw [if_neg c2] at h ⊢
            by_cases c3 : p2 = DOT
            · rw [if_pos c3] at h ⊢
              by_cases c4 : q = 0
              · rw [if_pos c4] at h; simp at h
              · rw [if_neg c4] at h ⊢
                by_cases c5 : prevEntryScan retval (q - 1) = 0
                · rw [if_pos c5] at h ⊢
                  cases hl : strlenAt retval (q + 2) with
                  | none => rw [hl] at h; simp at h
                  | some m =>
                    rw [hl] at h
                    simp only [Option.map_some', Option.some.injEq, Prod.mk.injEq] at h
                    exact ⟨q + 1, q, by rw [← h.1, ← h.2]⟩
                · rw [if_neg c5] at h ⊢
                  cases h3 : peek retval (q + 3) with
                  | none => rw [h3] at h; simp at h
                  | some p3 =>
                    rw [h3] at h
                    dsimp only at h ⊢
                    by_cases c6 : p3 ≠ 0
                    · rw [if_pos c6] at h; simp at h
                    · rw [if_neg c6] at h ⊢
                      cases hl : strlenAt retval (q + 4) with
                      | none => rw [hl] at h; simp at h
                      | some m =>
                        rw [hl] at h
                        simp only [Option.map_some', Option.some.injEq, Prod.mk.injEq] at h
                        exact ⟨prevEntryScan retval (q - 1) + 1, prevEntryScan retval (q - 1),
                          by rw [← h.1, ← h.2]⟩
            · rw [if_neg c3] at h; simp at h

/-- C11: a `..` entry in the middle of a path does not keep the rest of the
path. With the folder `C:\app`, `\\s\h\a\..\b` is resolved to `\\s\h`
while `\\s\h\b` is resolved to itself, and `C:\a\..\b` is resolved to
`C:` while `C:\b` is resolved to itself: the string is cut at the separator
before `a` (line 776), and `b` is lost. -/
theorem platformRealPath_dotdot_drops_rest :
    (__PHYSFS_platformRealPath 8 sampleOs
        (some [92, 92, 115, 92, 104, 92, 97, 92, 46, 46, 92, 98])).result =
        .returned (some [92, 92, 115, 92, 104]) ∧
      (__PHYSFS_platformRealPath 8 sampleOs (some [92, 92, 115, 92, 104, 92, 98])).result =
        .returned (some [92, 92, 115, 92, 104, 92, 98]) ∧
      (__PHYSFS_platformRealPath 8 sampleOs (some [67, 58, 92, 97, 92, 46, 46, 92, 98])).result =
        .returned (some [67, 58]) ∧
      (__PHYSFS_platformRealPath 8 sampleOs (some [67, 58, 92, 98])).result =
        .returned (some [67, 58, 92, 98]) := by
  decide

theorem realPathLoop_repeat (buf : List Nat) (p : Nat)
    (h : realPathStep buf p = some (buf, some p)) :
    ∀ fuel, realPathLoop fuel buf p = .outOfFuel := by
  intro fuel
  induction fuel with
  | zero => rfl
  | succ fuel ih =>
    unfold realPathLoop
    rw [h]
    exact ih

/-- C16: the loop does not end on every string. For the path `\s\a\..` in a
block whose stale bytes hold `a\..` after the terminator, the string has
length 8; the first round finds the entry at offset 5 and (line 778) copies
the stale bytes over `a\..`, which leaves the block as it was with the scan
position at 3, and so does every later round: the string is never shortened,
the scan position never passes 3, and the routine returns for no amount of fuel. -/
theorem platformRealPath_loop_repeats (fuel : Nat) :
    (loopOs.Malloc MAX_PATH).bind
        (fun g => strcpyAt (freshBlock MAX_PATH g) 0 [92, 92, 115, 92, 97, 92, 46, 46]) =
        some loopBlock ∧
      strlenAt loopBlock 0 = some 8 ∧
      strstrAt loopBlock 0 = some (some 5) ∧
      realPathStep loopBlock 0 = some (loopBlock, some 3) ∧
      strstrAt loopBlock 3 = some (some 5) ∧
      realPathStep loopBlock 3 = some (loopBlock, some 3) ∧
      (__PHYSFS_platformRealPath fuel loopOs (some [92, 92, 115, 92, 97, 92, 46, 46])).result =
        .outOfFuel := by
  have hfill : (loopOs.Malloc MAX_PATH).bind
      (fun g => strcpyAt (freshBlock MAX_PATH g) 0 [92, 92, 115, 92, 97, 92, 46, 46]) =
      some loopBlock := by decide
  have h0 : realPathStep loopBlock 0 = some (loopBlock, some 3) := by decide
  have h3 : realPathStep loopBlock 3 = some (loopBlock, some 3) := by decide
  refine ⟨hfill, by decide, by decide, h0, by decide, h3, ?_⟩
  have hloop : realPathLoop fuel loopBlock 0 = .outOfFuel := by
    cases fuel with
    | zero => rfl
    | succ fuel =>
      unfold realPathLoop
      rw [h0]
      exact realPathLoop_repeat loopBlock 3 h3 fuel
  have hrun : __PHYSFS_platformRealPath fuel loopOs (some [92, 92, 115, 92, 97, 92, 46, 46]) =
      realPathFinish fuel [.Malloc MAX_PATH] (some loopBlock) := by
    have hb : strcpyAt (freshBlock MAX_PATH
        (List.replicate 9 120 ++ [97, 92, 46, 46] ++ List.replicate (MAX_PATH - 13) 0)) 0
        [92, 92, 115, 92, 97, 92, 46, 46] = some loopBlock := hfill
    unfold __PHYSFS_platformRealPath
    show (if ([92, 92, 115, 92, 97, 92, 46, 46] : List Nat).getD 0 0 = 0 then _ else _) = _
    rw [if_neg (by decide)]
    show (if ([92, 92, 115, 92, 97, 92, 46, 46] : List Nat).getD 0 0 = BACKSLASH ∧
      ([92, 92, 115, 92, 97, 92, 46, 46] : List Nat).getD 1 0 = BACKSLASH then _ else _) = _
    rw [if_pos (by decide), hb]
  rw [hrun]
  unfold realPathFinish
  simp only [hloop]

/-- C17: for the path `\\s\a\..`, whatever bytes `g` the allocator left in
the block, the string filled in has its terminator at offset 8, and the
`memmove` of the first round (line 778) takes its source at offset 9, past
the terminator: its length is that of whatever string the stale bytes hold. -/
theorem realPathStep_source_past_terminator (g : List Nat) :
    strcpyAt (freshBlock MAX_PATH g) 0 [92, 92, 115, 92, 97, 92, 46, 46] =
        some ([92, 92, 115, 92, 97, 92, 46, 46] ++ 0 :: (freshBlock MAX_PATH g).drop 9) ∧
      strlenAt ([92, 92, 115, 92, 97, 92, 46, 46] ++ 0 :: (freshBlock MAX_PATH g).drop 9) 0 =
        some 8 ∧
      realPathStepSource
          ([92, 92, 115, 92, 97, 92, 46, 46] ++ 0 :: (freshBlock MAX_PATH g).drop 9) 0 =
        (strlenFrom ((freshBlock MAX_PATH g).drop 9)).map (fun n => (9, n + 1)) := by
  refine ⟨?_, ?_, ?_⟩
  · unfold strcpyAt writeAt
    rw [cstr_of_not_mem _ (by decide), if_pos (by rw [freshBlock_length]; decide)]
    simp
  · exact strlenAt_append_nul _ _ 0 (by decide) (by decide)
  · generalize (freshBlock MAX_PATH g).drop 9 = t
    simp [realPathStepSource, strstrAt, strlenAt, strlenFrom, findBackslashDot, peek,
      prevEntryScan, BACKSLASH, DOT]

end WinRT
